import Mathlib

/-!
Verification of the command-construction and output-parsing core of the
`nestjs-svn` module (`SvnBaseService` / `SvnReadService`).

Strings are modelled as `List Char` (`Str`).  Each definition is a shallow
embedding of the corresponding TypeScript method of
`src/services/svn-base.service.ts` (first revision, the one the claims cite)
or of `SvnReadService`; JavaScript runtime primitives that the code calls
(`encodeURIComponent`, `decodeURIComponent`, `new URL`, `path.posix.normalize`,
`String.prototype.replace`, …) are modelled explicitly below, faithful to
their observable behaviour on the inputs this repository feeds them.
-/

namespace Svn

abbrev Str := List Char

/-- ASCII uppercase letter test, as used by JS regexes without the `u` flag. -/
def isAsciiUpper (c : Char) : Bool := 'A' ≤ c && c ≤ 'Z'

/-- ASCII lowercase letter test. -/
def isAsciiLower (c : Char) : Bool := 'a' ≤ c && c ≤ 'z'

/-- ASCII letter test (`[a-zA-Z]`). -/
def isAsciiAlpha (c : Char) : Bool := isAsciiUpper c || isAsciiLower c

/-- ASCII digit test (`\d`). -/
def isAsciiDigit (c : Char) : Bool := '0' ≤ c && c ≤ '9'

/-- JS `\w` word-character class: `[A-Za-z0-9_]` (no `u` flag, ASCII only). -/
def isWordChar (c : Char) : Bool := isAsciiAlpha c || isAsciiDigit c || c = '_'

/-- Characters of the "safe" set of `escapeShellArg`: the regex
`/[^\w\-./:=@%]/` finds nothing iff every character is a word character or
one of `-`, `.`, `/`, `:`, `=`, `@`, `%`. -/
def isSafeShellChar (c : Char) : Bool :=
  isWordChar c || c = '-' || c = '.' || c = '/' || c = ':' || c = '=' || c = '@' || c = '%'

/-- Host platform, the value of `process.platform` the code branches on. -/
inductive Platform where
  | posix
  | win32
deriving DecidableEq

/-- The character expansion performed by `arg.replace(/'/g, "'\\''")`:
every single quote becomes the four characters `'\''`. -/
def posixQuoteExpand (c : Char) : Str :=
  if c = '\'' then ['\'', '\\', '\'', '\''] else [c]

/-- The character expansion performed by `arg.replace(/"/g, '\\"')` on the
Windows branch: every double quote gets a preceding backslash. -/
def win32QuoteExpand (c : Char) : Str :=
  if c = '"' then ['\\', '"'] else [c]

/-- `SvnBaseService.escapeShellArg` (svn-base.service.ts:295-313).
Empty arguments and arguments made only of safe characters are returned
unchanged; otherwise the argument is quoted by the platform convention. -/
def escapeShellArg (platform : Platform) (arg : Str) : Str :=
  if arg = [] then arg
  else if arg.all isSafeShellChar then arg
  else match platform with
    | .win32 => '"' :: (arg.flatMap win32QuoteExpand) ++ ['"']
    | .posix => '\'' :: (arg.flatMap posixQuoteExpand) ++ ['\'']

/-- Value of an ASCII hex digit (`[0-9a-fA-F]`), as accepted by a `%XX`
escape of `decodeURIComponent`. -/
def hexVal (c : Char) : Option Nat :=
  if isAsciiDigit c then some (c.toNat - '0'.toNat)
  else if 'A' ≤ c && c ≤ 'F' then some (c.toNat - 55)
  else if 'a' ≤ c && c ≤ 'f' then some (c.toNat - 87)
  else none

/-- Uppercase hex digit for a value below 16, the form emitted by
`encodeURIComponent` and by the WHATWG URL serializer. -/
def hexUpper (n : Nat) : Char :=
  if n < 10 then Char.ofNat ('0'.toNat + n) else Char.ofNat ('A'.toNat + n - 10)

/-- `%XX` escape of one byte, uppercase hex. -/
def pctByte (b : Nat) : Str := ['%', hexUpper (b / 16), hexUpper (b % 16)]

/-- UTF-8 encoding of a Unicode scalar value. -/
def utf8Enc (n : Nat) : List Nat :=
  if n < 0x80 then [n]
  else if n < 0x800 then [0xC0 + n / 64, 0x80 + n % 64]
  else if n < 0x10000 then [0xE0 + n / 4096, 0x80 + n / 64 % 64, 0x80 + n % 64]
  else [0xF0 + n / 262144, 0x80 + n / 4096 % 64, 0x80 + n / 64 % 64, 0x80 + n % 64]

/-- One scalar value split off a byte list, strict UTF-8: rejects stray
continuation bytes, truncated sequences, overlong forms, surrogates and
values above `0x10FFFF` — the sequences `decodeURIComponent` throws on. -/
def utf8Split (bs : List Nat) : Option (Nat × List Nat) :=
  match bs with
  | [] => none
  | b :: bs =>
    if b < 0x80 then some (b, bs)
    else if b < 0xC2 then none
    else if b < 0xE0 then
      match bs with
      | b2 :: rest =>
        if 0x80 <= b2 && b2 < 0xC0 then some ((b - 0xC0) * 64 + (b2 - 0x80), rest)
        else none
      | _ => none
    else if b < 0xF0 then
      match bs with
      | b2 :: b3 :: rest =>
        if 0x80 <= b2 && b2 < 0xC0 && 0x80 <= b3 && b3 < 0xC0 then
          let v := (b - 0xE0) * 4096 + (b2 - 0x80) * 64 + (b3 - 0x80)
          if 0x800 <= v && !(0xD800 <= v && v < 0xE000) then some (v, rest) else none
        else none
      | _ => none
    else if b < 0xF5 then
      match bs with
      | b2 :: b3 :: b4 :: rest =>
        if 0x80 <= b2 && b2 < 0xC0 && 0x80 <= b3 && b3 < 0xC0 && 0x80 <= b4 && b4 < 0xC0 then
          let v := (b - 0xF0) * 262144 + (b2 - 0x80) * 4096 + (b3 - 0x80) * 64 + (b4 - 0x80)
          if 0x10000 <= v && v < 0x110000 then some (v, rest) else none
        else none
      | _ => none
    else none

/-- Fuel-driven decoder: one scalar split per step (the fuel, initially the
byte count, never runs out first since each scalar consumes at least one
byte). -/
def utf8DecodeAllAux : Nat -> List Nat -> Option (List Nat)
  | _, [] => some []
  | 0, _ => none
  | fuel + 1, b :: bs =>
    match utf8Split (b :: bs) with
    | some vr => (utf8DecodeAllAux fuel vr.2).map (vr.1 :: ·)
    | none => none

/-- Strict UTF-8 decoding of a byte list into scalar values. -/
def utf8DecodeAll (bs : List Nat) : Option (List Nat) :=
  utf8DecodeAllAux bs.length bs

/-- Characters `encodeURIComponent` leaves unescaped:
`A-Z a-z 0-9 - _ . ! ~ * ' ( )`. -/
def isUriUnreserved (c : Char) : Bool :=
  isAsciiAlpha c || isAsciiDigit c || c = '-' || c = '_' || c = '.' || c = '!' ||
    c = '~' || c = '*' || c = '\'' || c = '(' || c = ')'

/-- JS `encodeURIComponent`: unreserved characters pass through, everything
else is UTF-8 encoded and percent-escaped (uppercase hex). -/
def encodeURIComponent (s : Str) : Str :=
  s.flatMap fun c =>
    if isUriUnreserved c then [c] else (utf8Enc c.toNat).flatMap pctByte

/-- One lexing pass of `decodeURIComponent`: literal characters stay as
`Sum.inl`, each valid `%XX` escape becomes the byte `Sum.inr`; an ill-formed
escape is a `URIError` (`none`). -/
def pctTokens : Str → Option (List (Sum Char Nat))
  | [] => some []
  | '%' :: rest =>
    match rest with
    | h1 :: h2 :: rest' =>
      match hexVal h1, hexVal h2 with
      | some a, some b => (pctTokens rest').map (Sum.inr (a * 16 + b) :: ·)
      | _, _ => none
    | _ => none
  | c :: rest => (pctTokens rest).map (Sum.inl c :: ·)

/-- Scalar value back to a `Char`; `utf8DecodeAll` only produces valid
scalar values, for which `Char.ofNat` is exact. -/
def charOfCp (n : Nat) : Char := Char.ofNat n

/-- Second pass of `decodeURIComponent`: maximal runs of escape bytes are
decoded as UTF-8; the accumulator holds the current run in reverse. -/
def groupDecode (run : List Nat) : List (Sum Char Nat) → Option (List Char)
  | [] =>
    if run = [] then some []
    else (utf8DecodeAll run.reverse).map (·.map charOfCp)
  | Sum.inr b :: ts => groupDecode (b :: run) ts
  | Sum.inl c :: ts =>
    match (if run = [] then some [] else (utf8DecodeAll run.reverse).map (·.map charOfCp)) with
    | none => none
    | some cs =>
      match groupDecode [] ts with
      | none => none
      | some rest => some (cs ++ c :: rest)

/-- JS `decodeURIComponent`; `none` models a thrown `URIError`. -/
def decodeURIComponentJs (s : Str) : Option Str :=
  match pctTokens s with
  | none => none
  | some ts => groupDecode [] ts

/-- Fuel-driven worker for `replaceAll`; the fuel (initially the input
length) never runs out before the input does. -/
def replaceAllAux (pat rep : Str) : Nat → Str → Str
  | _, [] => []
  | 0, s => s
  | fuel + 1, c :: rest =>
    if pat ≠ [] ∧ pat.isPrefixOf (c :: rest) then
      rep ++ replaceAllAux pat rep fuel ((c :: rest).drop pat.length)
    else c :: replaceAllAux pat rep fuel rest

/-- JS `String.prototype.replace` with a global literal pattern: leftmost,
non-overlapping, the replacement is not rescanned. -/
def replaceAll (pat rep s : Str) : Str :=
  replaceAllAux pat rep s.length s

/-- JS `String.fromCharCode`: the argument is taken modulo 2^16.  (For a
value that is an unpaired surrogate JS builds a lone surrogate code unit,
which `Char` cannot represent; `Char.ofNat` maps those to `'\0'`.  The
repository only feeds entities of printable characters.) -/
def fromCharCode (n : Nat) : Char := Char.ofNat (n % 65536)

/-- One decimal character reference parsed at the position just after
`&#`: the digit run, the terminating `;`, and the decoded character. -/
def decEntityAt (rest' : Str) : Option (Char × Str) :=
  let digits := rest'.takeWhile isAsciiDigit
  match rest'.dropWhile isAsciiDigit with
  | ';' :: tail =>
    if digits = [] then none
    else some (fromCharCode (Nat.ofDigits 10 (digits.map (·.toNat - '0'.toNat)).reverse), tail)
  | _ => none

/-- Fuel-driven worker for `replaceDecEntities`. -/
def replaceDecEntitiesAux : Nat → Str → Str
  | _, [] => []
  | 0, s => s
  | fuel + 1, '&' :: '#' :: rest' =>
    match decEntityAt rest' with
    | some ct => ct.1 :: replaceDecEntitiesAux fuel ct.2
    | none => '&' :: replaceDecEntitiesAux fuel ('#' :: rest')
  | fuel + 1, c :: rest => c :: replaceDecEntitiesAux fuel rest

/-- Replacement pass for `/&#(\d+);/g`: each decimal character reference
becomes `String.fromCharCode(parseInt(dec, 10))`. -/
def replaceDecEntities (s : Str) : Str :=
  replaceDecEntitiesAux s.length s

/-- Hex digit class of the `/&#x([\da-f]+);/gi` pattern. -/
def isJsHexDigit (c : Char) : Bool :=
  isAsciiDigit c || ('a' ≤ c && c ≤ 'f') || ('A' ≤ c && c ≤ 'F')

/-- One hex character reference parsed at the position just after `&#x`. -/
def hexEntityAt (rest' : Str) : Option (Char × Str) :=
  let digits := rest'.takeWhile isJsHexDigit
  match rest'.dropWhile isJsHexDigit with
  | ';' :: tail =>
    if digits = [] then none
    else some (fromCharCode (Nat.ofDigits 16 (digits.map fun c => (hexVal c).getD 0).reverse), tail)
  | _ => none

/-- Fuel-driven worker for `replaceHexEntities`. -/
def replaceHexEntitiesAux : Nat → Str → Str
  | _, [] => []
  | 0, s => s
  | fuel + 1, '&' :: '#' :: 'x' :: rest' =>
    match hexEntityAt rest' with
    | some ct => ct.1 :: replaceHexEntitiesAux fuel ct.2
    | none => '&' :: replaceHexEntitiesAux fuel ('#' :: 'x' :: rest')
  | fuel + 1, c :: rest => c :: replaceHexEntitiesAux fuel rest

/-- Replacement pass for `/&#x([\da-f]+);/gi`: each hex character reference
becomes `String.fromCharCode(parseInt(hex, 16))` (only the digits are
case-insensitive in the decoded value; `hexVal` accepts both cases). -/
def replaceHexEntities (s : Str) : Str :=
  replaceHexEntitiesAux s.length s

/-- `SvnBaseService.decodeHtmlEntities` (svn-base.service.ts:141-162).
First tries `decodeURIComponent`, falling back to the original string on a
`URIError`, then applies the chain of HTML-entity replacements in source
order. -/
def decodeHtmlEntities (s : Str) : Str :=
  let decoded := (decodeURIComponentJs s).getD s
  replaceHexEntities <| replaceDecEntities <|
    replaceAll "&#x2F;".toList "/".toList <|
    replaceAll "&#x27;".toList "\'".toList <|
    replaceAll "&#39;".toList "\'".toList <|
    replaceAll "&quot;".toList "\"".toList <|
    replaceAll "&gt;".toList ">".toList <|
    replaceAll "&lt;".toList "<".toList <|
    replaceAll "&amp;".toList "&".toList decoded

/-- Split at every occurrence of a separator character, JS
`String.prototype.split` with a one-character separator. -/
def splitOnChar (sep : Char) : Str → List Str
  | [] => [[]]
  | c :: rest =>
    if c = sep then [] :: splitOnChar sep rest
    else
      (c :: (splitOnChar sep rest).headD []) :: (splitOnChar sep rest).tail

/-- `Array.prototype.join` with a separator string. -/
def joinSep (sep : Str) : List Str → Str
  | [] => []
  | [x] => x
  | x :: xs => x ++ sep ++ joinSep sep xs

/-- ASCII lowercasing, as the WHATWG URL parser applies to scheme and host. -/
def toAsciiLower (c : Char) : Char :=
  if isAsciiUpper c then Char.ofNat (c.toNat + 32) else c

/-- Scheme characters after the first: `[a-zA-Z0-9+\-.]`. -/
def isSchemeTailChar (c : Char) : Bool :=
  isAsciiAlpha c || isAsciiDigit c || c = '+' || c = '-' || c = '.'

/-- A character ending the host span of an authority URL. -/
def isHostEnd (c : Char) : Bool := c = '/' || c = '?' || c = '#'

/-- A character ending the path span (start of query or fragment). -/
def isPathEnd (c : Char) : Bool := c = '?' || c = '#'

/-- WHATWG path percent-encode set: C0 controls, DEL and non-ASCII, space,
`"`, `<`, `>`, backtick, `{`, `}`, `?`, `#`. -/
def inPathEncodeSet (c : Char) : Bool :=
  c.toNat < 0x20 || c.toNat > 0x7E || c = ' ' || c = '"' || c = '<' || c = '>' ||
    c.toNat = 0x60 || c = '{' || c = '}' || c = '?' || c = '#'

/-- Percent-encoding of a path string per the WHATWG path encode set
(`/` separators pass through). -/
def pathEncode (s : Str) : Str :=
  s.flatMap fun c =>
    if inPathEncodeSet c then (utf8Enc c.toNat).flatMap pctByte else [c]

/-- Model of a parsed WHATWG `URL` of the authority-based form
`scheme://host/path?query#fragment` that this repository builds
(`http(s)`/`file`-style URLs).  Not modelled: dot-segment normalisation,
ports, credentials, IDNA, the `file:` empty-host special case, opaque-path
(non-special no-slash) URLs, and query/fragment re-encoding — none of which
the repository's inputs exercise; `tail` keeps `?...`/`#...` verbatim. -/
structure UrlObj where
  scheme : Str
  host : Str
  pathname : Str
  tail : Str
deriving DecidableEq

/-- Splits a leading `:` off a string, `none` when absent. -/
def splitColon (s : Str) : Option Str :=
  match s with
  | c :: rest => if c = ':' then some rest else none
  | [] => none

/-- Model of `new URL(url)`: splits off the scheme, skips the slashes,
lowercases scheme and host, percent-encodes the path, keeps query/fragment;
`none` models a thrown `TypeError` (no valid scheme, or empty host). -/
def parseURL (url : Str) : Option UrlObj :=
  let schemeRaw := url.takeWhile isSchemeTailChar
  match splitColon (url.dropWhile isSchemeTailChar) with
  | some afterColon =>
    if isAsciiAlpha (schemeRaw.headD ' ') then
      let afterSlashes := afterColon.dropWhile (· = '/')
      let host := afterSlashes.takeWhile fun c => !isHostEnd c
      let pathStart := afterSlashes.dropWhile fun c => !isHostEnd c
      if host = [] then none
      else
        let rawPath := pathStart.takeWhile fun c => !isPathEnd c
        let tail := pathStart.dropWhile fun c => !isPathEnd c
        some { scheme := schemeRaw.map toAsciiLower, host := host.map toAsciiLower,
               pathname := if rawPath = [] then ['/'] else pathEncode rawPath,
               tail := tail }
    else none
  | none => none

/-- WHATWG `URL` serialization for the modelled authority form
(`url.toString()`). -/
def serializeURL (u : UrlObj) : Str :=
  u.scheme ++ ':' :: '/' :: '/' :: u.host ++ u.pathname ++ u.tail

/-- Per-segment step of `encodeUrlPathSegments`: empty segments pass,
others are entity/URL-decoded once and then `encodeURIComponent`-encoded. -/
def encSegment (seg : Str) : Str :=
  if seg = [] then seg else encodeURIComponent (decodeHtmlEntities seg)

/-- The manual fallback of `encodeUrlPathSegments`:
`url.match(/^([^/]+:\/\/[^/]+)(\/.*)?$/)`, returning the base (group 1) and
the path part (group 2, possibly empty).  `.` does not match a newline, so a
newline in the path part makes the whole match fail. -/
def fallbackMatch (url : Str) : Option (Str × Str) :=
  let a := url.takeWhile (· ≠ '/')
  match url.dropWhile (· ≠ '/') with
  | '/' :: '/' :: r2 =>
    if 2 ≤ a.length ∧ a.getLast? = some ':' then
      let h := r2.takeWhile (· ≠ '/')
      let rest := r2.dropWhile (· ≠ '/')
      if h = [] then none
      else if rest = [] then some (a ++ '/' :: '/' :: h, [])
      else if rest.all (· ≠ '\n') then some (a ++ '/' :: '/' :: h, rest)
      else none
    else none
  | _ => none

/-- `SvnBaseService.encodeUrlPathSegments` (svn-base.service.ts:169-215).
Splits the URL's path on `/`, decodes each segment (URL decoding and HTML
entities) and re-encodes it with `encodeURIComponent`; falls back to a
manual regex split when `new URL` throws, and to the unchanged input when
that fails too. -/
def encodeUrlPathSegments (url : Str) : Str :=
  match parseURL url with
  | some u =>
    let newPath := joinSep ['/'] ((splitOnChar '/' u.pathname).map encSegment)
    serializeURL { u with pathname := pathEncode newPath }
  | none =>
    match fallbackMatch url with
    | some (base, urlPath) =>
      if urlPath = [] then url
      else base ++ joinSep ['/'] ((splitOnChar '/' urlPath).map encSegment)
    | none => url

/-- One step of `path.posix.normalize`'s segment resolution: drop empty and
`.` segments; `..` pops a previous segment, or is kept (relative paths) /
dropped (absolute paths) at the root.  The stack is kept reversed. -/
def normStep (allowAbove : Bool) (stack : List Str) (seg : Str) : List Str :=
  if seg = [] ∨ seg = ['.'] then stack
  else if seg = ['.', '.'] then
    match stack with
    | s :: rest => if s = ['.', '.'] then seg :: stack else rest
    | [] => if allowAbove then [seg] else []
  else seg :: stack

/-- Node `path.posix.normalize`: resolves `.`/`..`, collapses repeated
slashes, preserves a trailing slash, returns `.` for an empty result. -/
def posixNormalize (p : Str) : Str :=
  if p = [] then ['.']
  else
    let isAbs := p.headD ' ' = '/'
    let trailing := p.getLast? = some '/'
    let stack := (splitOnChar '/' p).foldl (normStep (¬isAbs)) []
    let core := joinSep ['/'] stack.reverse
    if core = [] then
      if isAbs then ['/'] else if trailing then ['.', '/'] else ['.']
    else
      let core' := if trailing then core ++ ['/'] else core
      if isAbs then '/' :: core' else core'

/-- `SvnBaseService.isUrl` (svn-base.service.ts:220-222):
`/^[a-zA-Z][a-zA-Z\d+\-.]*:/.test(path)`. -/
def isUrl (p : Str) : Bool :=
  match p with
  | [] => false
  | c :: rest =>
    isAsciiAlpha c && (splitColon (rest.dropWhile isSchemeTailChar)).isSome

/-- The options record (`SvnOptions` / `SvnModuleOptions`,
svn-options.interface.ts); `none` is an absent field. -/
structure SvnOptions where
  username : Option Str := none
  password : Option Str := none
  repositoryUrl : Option Str := none
  nonInteractive : Option Bool := none
  trustServerCert : Option Bool := none
  noAuthCache : Option Bool := none
deriving DecidableEq

/-- JS truthiness of an optional string field: present and non-empty. -/
def strTruthy : Option Str → Bool
  | some s => ¬s.isEmpty
  | none => false

/-- `baseUrl.replace(/\/$/, '')`: strips one trailing slash. -/
def stripOneTrailingSlash (s : Str) : Str :=
  if s.getLast? = some '/' then s.dropLast else s

/-- `path.replace(/^\.\//, '')`: strips one leading `./`. -/
def stripLeadingDotSlash : Str → Str
  | '.' :: '/' :: rest => rest
  | s => s

/-- `path.replace(/^\//, '')`: strips one leading `/`. -/
def stripLeadingSlashOnce : Str → Str
  | '/' :: rest => rest
  | s => s

/-- `fullUrl.replace(/\/+/g, '/')`: collapses every run of slashes to one
(including the `//` of the base URL's scheme separator). -/
def collapseSlashes : Str → Str
  | [] => []
  | [c] => [c]
  | c :: d :: rest =>
    if c = '/' ∧ d = '/' then collapseSlashes (d :: rest)
    else c :: collapseSlashes (d :: rest)

/-- `SvnBaseService.resolvePath` (svn-base.service.ts:229-271), on the POSIX
platform.  `none` models an `undefined` argument/result. -/
def resolvePath (pathStr : Option Str) (options : SvnOptions) : Option Str :=
  match pathStr with
  | none => none
  | some p =>
    if p = [] then some p
    else if strTruthy options.repositoryUrl then
      let baseUrl := stripOneTrailingSlash (options.repositoryUrl.getD [])
      if p = ['.', '/'] ∨ p = ['.'] ∨ p = ['/'] then some baseUrl
      else
        let relativePath := posixNormalize (stripLeadingSlashOnce (stripLeadingDotSlash p))
        some (encodeUrlPathSegments (collapseSlashes (baseUrl ++ '/' :: relativePath)))
    else if isUrl p then some (encodeUrlPathSegments p)
    else some (posixNormalize p)

/-- The spread merge `{...base, ...update}` over the option fields: a field
present in the update wins, otherwise the base's value is kept. -/
def spreadMerge (base upd : SvnOptions) : SvnOptions where
  username := upd.username.orElse fun _ => base.username
  password := upd.password.orElse fun _ => base.password
  repositoryUrl := upd.repositoryUrl.orElse fun _ => base.repositoryUrl
  nonInteractive := upd.nonInteractive.orElse fun _ => base.nonInteractive
  trustServerCert := upd.trustServerCert.orElse fun _ => base.trustServerCert
  noAuthCache := upd.noAuthCache.orElse fun _ => base.noAuthCache

/-- `SvnBaseService.setDefaultOptions` (svn-base.service.ts:30-32):
`this.defaultOptions = { ...this.defaultOptions, ...options }`.  The state
is the `defaultOptions` field. -/
def setDefaultOptions (state options : SvnOptions) : SvnOptions :=
  spreadMerge state options

/-- `SvnBaseService.mergeOptions` (svn-base.service.ts:41-46):
`{ ...this.defaultOptions, ...options }`. -/
def mergeOptions (defaults options : SvnOptions) : SvnOptions :=
  spreadMerge defaults options

/-- `SvnBaseService.addCommonFlags` (svn-base.service.ts:318-330); array
mutation is threaded. -/
def addCommonFlags (svnArgs : List Str) (options : SvnOptions) : List Str :=
  let a1 := if options.nonInteractive ≠ some false
    then svnArgs ++ ["--non-interactive".toList] else svnArgs
  let a2 := if options.trustServerCert = some true
    then a1 ++ ["--trust-server-cert".toList] else a1
  if options.noAuthCache = some true then a2 ++ ["--no-auth-cache".toList] else a2

/-- `SvnBaseService.addAuthFlags` (svn-base.service.ts:335-343). -/
def addAuthFlags (svnArgs : List Str) (options : SvnOptions) : List Str :=
  let a1 := if strTruthy options.username
    then svnArgs ++ ["--username".toList, options.username.getD []] else svnArgs
  if strTruthy options.password
    then a1 ++ ["--password".toList, options.password.getD []] else a1

/-- `/^\d+$/.test(arg)`: non-empty and all digits. -/
def isPureNumeric (arg : Str) : Bool := ¬arg.isEmpty && arg.all isAsciiDigit

/-- `SvnBaseService.resolvePathArgs` (svn-base.service.ts:348-356): resolve
each argument that is truthy, not a `--` flag and not purely numeric,
falling back to the original on a falsy resolution. -/
def resolvePathArgs (args : List Str) (options : SvnOptions) : List Str :=
  args.map fun arg =>
    if ¬arg.isEmpty && ¬("--".toList.isPrefixOf arg) && ¬isPureNumeric arg then
      match resolvePath (some arg) options with
      | some r => if r.isEmpty then arg else r
      | none => arg
    else arg

/-- `SvnBaseService.buildSvnArgs` (svn-base.service.ts:277-289): merge
options, add common and auth flags, resolve and escape the positional
arguments, and join everything after the `svn` prefix with single spaces. -/
def buildSvnArgs (platform : Platform) (defaults : SvnOptions) (command : Str)
    (args : List Str) (options : SvnOptions) : Str × SvnOptions :=
  let mergedOptions := mergeOptions defaults options
  let svnArgs := [command]
  let svnArgs := addCommonFlags svnArgs mergedOptions
  let svnArgs := addAuthFlags svnArgs mergedOptions
  let escapedArgs := (resolvePathArgs args mergedOptions).map (escapeShellArg platform)
  ("svn ".toList ++ joinSep [' '] (svnArgs ++ escapedArgs), mergedOptions)

/-- JS `String.prototype.trim`. -/
def jsTrim (s : Str) : Str :=
  ((s.dropWhile Char.isWhitespace).reverse.dropWhile Char.isWhitespace).reverse

/-- `SvnCommandResult` (svn-options.interface.ts): the uniform execution
result; `code` is absent on launch failure. -/
structure SvnCommandResult where
  success : Bool
  stdout : Str
  stderr : Str
  code : Option Int := none
deriving DecidableEq

/-- The error object caught by `executeCommand` when the subprocess ran and
failed: it owns `stdout`, `stderr` and `code` properties (each possibly
`undefined`) plus the `Error` message. -/
structure ExecErrorObj where
  stdout : Option Str
  stderr : Option Str
  code : Option Int
  message : Option Str
deriving DecidableEq

/-- A thrown value as classified by `handleCommandError`'s guard: either an
object carrying `stdout`/`stderr`/`code` properties, or a plain `Error`
(whose `String(error)`-visible message is kept), e.g. a launch failure. -/
inductive JsError where
  | execErr (e : ExecErrorObj)
  | plainError (message : Str)
deriving DecidableEq

/-- JS `a || b` on an optional string: the left value when present and
non-empty, otherwise the right. -/
def jsOrStr (a : Option Str) (b : Str) : Str :=
  match a with
  | some s => if s.isEmpty then b else s
  | none => b

/-- `SvnBaseService.handleCommandError` (svn-base.service.ts:117-134). -/
def handleCommandError (error : JsError) : SvnCommandResult :=
  match error with
  | .execErr e =>
    { success := false,
      stdout := jsOrStr (e.stdout.map jsTrim) [],
      stderr := jsOrStr (e.stderr.map jsTrim) (jsOrStr e.message []),
      code := e.code }
  | .plainError message =>
    { success := false, stdout := [], stderr := message, code := none }

/-- The `STATUS_MAP` of `SvnReadService`: SVN status item names to their
single-character codes. -/
def statusMap (item : Str) : Str :=
  if item = "added".toList then ['A']
  else if item = "modified".toList then ['M']
  else if item = "deleted".toList then ['D']
  else if item = "replaced".toList then ['R']
  else if item = "conflicted".toList then ['C']
  else if item = "obstructed".toList then ['~']
  else if item = "not-tracked".toList then ['?']
  else if item = "ignored".toList then ['I']
  else if item = "missing".toList then ['!']
  else if item = "incomplete".toList then ['!']
  else if item = "external".toList then ['X']
  else if item = "unversioned".toList then ['?']
  else [' ']

/-- `SvnReadService.isValidRevision`: truthy, not the literal `-1`, and
matching `/^\d+$/`. -/
def isValidRevision (revision : Str) : Bool :=
  ¬revision.isEmpty && revision ≠ ['-', '1'] && isPureNumeric revision

/-- Split at the first occurrence of a substring: `some (before, after)`,
the needle excluded; `none` when the needle does not occur. -/
def splitFirstSub (needle : Str) : Str → Option (Str × Str)
  | [] => if needle = [] then some ([], []) else none
  | c :: rest =>
    if needle.isPrefixOf (c :: rest) then some ([], (c :: rest).drop needle.length)
    else match splitFirstSub needle rest with
      | some (pre, post) => some (c :: pre, post)
      | none => none

/-- Position of the last occurrence of a substring. -/
def lastMatchPos (needle hay : Str) : Option Nat :=
  ((List.range (hay.length + 1)).filter fun i => needle.isPrefixOf (hay.drop i)).getLast?

/-- Split at the last occurrence of a substring (the greedy `[\s\S]*`
capture stops before the last occurrence of the closing literal). -/
def splitLastSub (needle hay : Str) : Option (Str × Str) :=
  (lastMatchPos needle hay).map fun i => (hay.take i, hay.drop (i + needle.length))

/-- Attempt `<tag[^>]*>([\s\S]*)</tag>` at the current position: the literal
open prefix, a run of non-`>` characters, `>`, then a greedy capture up to
the last close literal. -/
def attemptTagBlock (tag : Str) (s : Str) : Option Str :=
  if ('<' :: tag).isPrefixOf s then
    let t := s.drop (tag.length + 1)
    match t.dropWhile (· ≠ '>') with
    | '>' :: body => (splitLastSub ('<' :: '/' :: tag ++ ['>']) body).map (·.1)
    | _ => none
  else none

/-- Regex `.match` scan: try the attempt at each position, left to right. -/
def scanFirst (attempt : Str → Option α) : Str → Option α
  | [] => none
  | c :: cs =>
    match attempt (c :: cs) with
    | some x => some x
    | none => scanFirst attempt cs

/-- The leftmost match of `/<tag[^>]*>([\s\S]*)<\/tag>/`, as used for the
root `<status>`/`<log>`/`<lists>` blocks. -/
def matchTagBlockGreedy (tag : Str) : Str → Option Str
  | [] => none
  | c :: cs =>
    match attemptTagBlock tag (c :: cs) with
    | some content => some content
    | none => matchTagBlockGreedy tag cs

/-- Regex `.matchAll` scan with an attempt that also returns the rest of the
input after the match; the fuel (initially the input length) only bounds the
recursion and never runs out before the input does. -/
def scanAllAux (attempt : Str → Option (α × Str)) : Nat → Str → List α
  | 0, _ => []
  | _, [] => []
  | fuel + 1, c :: cs =>
    match attempt (c :: cs) with
    | some (x, rest) => x :: scanAllAux attempt fuel rest
    | none => scanAllAux attempt fuel cs

/-- All matches of a pattern, left to right, non-overlapping. -/
def scanAll (attempt : Str → Option (α × Str)) (s : Str) : List α :=
  scanAllAux attempt s.length s

/-- Open-tag split at the current position: the open literal (e.g.
`<entry`), the run of characters before the first `>` (the reach of the
`[^>]*` attribute matchers — attribute values are assumed `>`-free, as in
`svn --xml` output), and the body after the `>`. -/
def openTagSplit (openLit : Str) (s : Str) : Option (Str × Str) :=
  if openLit.isPrefixOf s then
    let t := s.drop openLit.length
    match t.dropWhile (· ≠ '>') with
    | '>' :: body => some (t.takeWhile (· ≠ '>'), body)
    | _ => none
  else none

/-- First `name="value"` attribute occurrence inside an open tag's
character run (the backtracking choice coincides with it for the
single-occurrence attributes `svn --xml` emits). -/
def attrFirst (name : Str) (stretch : Str) : Option (Str × Str) :=
  (splitFirstSub (name ++ ['=', '"']) stretch).bind fun pr =>
    splitFirstSub ['"'] pr.2

/-- Last `name="value"` attribute occurrence (the greedy `[^>]*` before a
sole trailing attribute matcher picks the last occurrence). -/
def attrLast (name : Str) (stretch : Str) : Option Str :=
  (splitLastSub (name ++ ['=', '"']) stretch).bind fun pr =>
    (splitFirstSub ['"'] pr.2).map (·.1)

/-- Lazy single-line content: `(.*?)` up to the closing literal — `.` does
not match a newline, so a newline before the first close fails the match at
this position. -/
def lazyNoNl (close : Str) (body : Str) : Option (Str × Str) :=
  (splitFirstSub close body).bind fun pr =>
    if pr.1.all (· ≠ '\n') then some pr else none

/-- Attempt `/<tag>(.*?)<\/tag>/` at the current position (no attributes in
the pattern). -/
def attemptSimpleTag (tag : Str) (s : Str) : Option Str :=
  if ('<' :: tag ++ ['>']).isPrefixOf s then
    (lazyNoNl ('<' :: '/' :: tag ++ ['>']) (s.drop (tag.length + 2))).map (·.1)
  else none

/-- Attempt one `<entry … path="…" …>…</entry>` status-entry match
(`/<entry[^>]*path="([^"]*)"[^>]*>([\s\S]*?)<\/entry>/g`). -/
def attemptStatusEntry (s : Str) : Option ((Str × Str) × Str) :=
  (openTagSplit "<entry".toList s).bind fun (stretch, body) =>
    (attrLast "path".toList stretch).bind fun pathv =>
      (splitFirstSub "</entry>".toList body).map fun (content, rest) =>
        ((pathv, content), rest)

/-- Attempt the `wc-status` match
(`/<wc-status[^>]*item="([^"]*)"[^>]*revision="([^"]*)"[^>]*>([\s\S]*?)<\/wc-status>/`). -/
def attemptWcStatus (s : Str) : Option (Str × Str × Str) :=
  (openTagSplit "<wc-status".toList s).bind fun (stretch, body) =>
    (attrFirst "item".toList stretch).bind fun (itemv, r2) =>
      (attrFirst "revision".toList r2).bind fun (revv, _) =>
        (splitFirstSub "</wc-status>".toList body).map fun (content, _) =>
          (itemv, revv, content)

/-- Attempt the `commit` match
(`/<commit[^>]*revision="([^"]*)"[^>]*>([\s\S]*?)<\/commit>/`). -/
def attemptCommit (s : Str) : Option (Str × Str) :=
  (openTagSplit "<commit".toList s).bind fun (stretch, body) =>
    (attrFirst "revision".toList stretch).bind fun (revv, _) =>
      (splitFirstSub "</commit>".toList body).map fun (content, _) =>
        (revv, content)

/-- Attempt the `repos-status` match
(`/<repos-status[^>]*item="([^"]*)"[^>]*>([\s\S]*?)<\/repos-status>/`). -/
def attemptReposStatus (s : Str) : Option (Str × Str) :=
  (openTagSplit "<repos-status".toList s).bind fun (stretch, body) =>
    (attrFirst "item".toList stretch).bind fun (itemv, _) =>
      (splitFirstSub "</repos-status>".toList body).map fun (content, _) =>
        (itemv, content)

/-- `SvnStatusResult` (svn-options.interface.ts). -/
structure SvnStatusResult where
  path : Str
  status : Str
  workingRevision : Option Str := none
  lastChangedRevision : Option Str := none
  lastChangedAuthor : Option Str := none
  lastChangedDate : Option Str := none
deriving DecidableEq

/-- Body of the per-entry loop of `SvnReadService.parseStatusOutput`: build
one `SvnStatusResult` from a matched `path` attribute and entry content. -/
def mkStatusItem (pathRaw content : Str) : SvnStatusResult :=
  let wc := scanFirst attemptWcStatus content
  let status := match wc with
    | some t => statusMap t.1
    | none => [' ']
  let workingRevision := match wc with
    | some t => if isValidRevision t.2.1 then some t.2.1 else none
    | none => none
  let commit := wc.bind fun t => scanFirst attemptCommit t.2.2
  let lastChangedRevision₀ := commit.map (·.1)
  let lastChangedAuthor₀ := commit.bind fun pr =>
    (scanFirst (attemptSimpleTag "author".toList) pr.2).map decodeHtmlEntities
  let lastChangedDate₀ := commit.bind fun pr =>
    scanFirst (attemptSimpleTag "date".toList) pr.2
  let reposCommit := (scanFirst attemptReposStatus content).bind fun pr =>
    scanFirst attemptCommit pr.2
  let final := match reposCommit with
    | some (rrev, rcc) =>
      if lastChangedRevision₀ = none then
        (some rrev,
         lastChangedAuthor₀.orElse fun _ =>
           (scanFirst (attemptSimpleTag "author".toList) rcc).map decodeHtmlEntities,
         lastChangedDate₀.orElse fun _ =>
           scanFirst (attemptSimpleTag "date".toList) rcc)
      else (lastChangedRevision₀, lastChangedAuthor₀, lastChangedDate₀)
    | none => (lastChangedRevision₀, lastChangedAuthor₀, lastChangedDate₀)
  { path := decodeHtmlEntities pathRaw,
    status := status,
    workingRevision := workingRevision,
    lastChangedRevision := final.1,
    lastChangedAuthor := final.2.1,
    lastChangedDate := final.2.2 }

/-- `SvnReadService.parseStatusOutput` (the read service embedded in
svn-base.service.spec.ts, lines 708-790). -/
def parseStatusOutput (xmlOutput : Str) : List SvnStatusResult :=
  match matchTagBlockGreedy "status".toList xmlOutput with
  | none => []
  | some statusContent =>
    (scanAll attemptStatusEntry statusContent).map fun pm => mkStatusItem pm.1 pm.2

/-- One changed-path record of a log entry. -/
structure SvnLogPath where
  action : Str
  kind : Str
  path : Str
deriving DecidableEq

/-- `SvnLogEntry` (svn-options.interface.ts). -/
structure SvnLogEntry where
  revision : Str
  author : Str
  date : Str
  message : Str
  paths : Option (List SvnLogPath) := none
deriving DecidableEq

/-- Attempt one `logentry` match
(`/<logentry[^>]*revision="(\d+)"[^>]*>([\s\S]*?)<\/logentry>/g`); the
revision capture is `(\d+)` followed by the closing quote. -/
def attemptLogEntry (s : Str) : Option ((Str × Str) × Str) :=
  (openTagSplit "<logentry".toList s).bind fun (stretch, body) =>
    (splitFirstSub "revision=\"".toList stretch).bind fun (_, r1) =>
      let digits := r1.takeWhile isAsciiDigit
      if digits ≠ [] ∧ (r1.drop digits.length).headD ' ' = '"' then
        (splitFirstSub "</logentry>".toList body).map fun (content, rest) =>
          ((digits, content), rest)
      else none

/-- Attempt the `<paths>…</paths>` block match (`/<paths>([\s\S]*?)<\/paths>/`). -/
def attemptPathsBlock (s : Str) : Option Str :=
  if "<paths>".toList.isPrefixOf s then
    (splitFirstSub "</paths>".toList (s.drop 7)).map (·.1)
  else none

/-- Attempt one changed-path match
(`/<path[^>]*action="([^"]*)"[^>]*kind="([^"]*)"[^>]*>(.*?)<\/path>/g`). -/
def attemptLogPath (s : Str) : Option ((Str × Str × Str) × Str) :=
  (openTagSplit "<path".toList s).bind fun (stretch, body) =>
    (attrFirst "action".toList stretch).bind fun (av, r2) =>
      (attrFirst "kind".toList r2).bind fun (kv, _) =>
        (lazyNoNl "</path>".toList body).map fun (content, rest) =>
          ((av, kv, content), rest)

/-- Body of the per-entry loop of `SvnReadService.parseLogOutput`. -/
def mkLogEntry (revision content : Str) : SvnLogEntry :=
  { revision := revision,
    author := match scanFirst (attemptSimpleTag "author".toList) content with
      | some a => decodeHtmlEntities a
      | none => [],
    date := (scanFirst (attemptSimpleTag "date".toList) content).getD [],
    message := match scanFirst (attemptSimpleTag "msg".toList) content with
      | some m => decodeHtmlEntities m
      | none => [],
    paths := (scanFirst attemptPathsBlock content).map fun pc =>
      (scanAll attemptLogPath pc).map fun t =>
        { action := t.1, kind := t.2.1, path := decodeHtmlEntities t.2.2 } }

/-- `SvnReadService.parseLogOutput` (svn-base.service.spec.ts:851-896). -/
def parseLogOutput (xmlOutput : Str) : List SvnLogEntry :=
  match matchTagBlockGreedy "log".toList xmlOutput with
  | none => []
  | some logContent =>
    (scanAll attemptLogEntry logContent).map fun pm => mkLogEntry pm.1 pm.2

/-- Attempt one list `<entry…>…</entry>` match
(`/<entry[^>]*>([\s\S]*?)<\/entry>/g`). -/
def attemptListEntry (s : Str) : Option (Str × Str) :=
  (openTagSplit "<entry".toList s).bind fun (_, body) =>
    splitFirstSub "</entry>".toList body

/-- `SvnReadService.parseListOutput` (svn-base.service.spec.ts:901-924):
each entry contributes its decoded `<name>` child, if present. -/
def parseListOutput (xmlOutput : Str) : List Str :=
  match matchTagBlockGreedy "lists".toList xmlOutput with
  | none => []
  | some listContent =>
    (scanAll attemptListEntry listContent).filterMap fun ec =>
      (scanFirst (attemptSimpleTag "name".toList) ec).map decodeHtmlEntities

/-- `SvnInfoResult` (svn-options.interface.ts); the parser produces a
partial record, so every field is optional. -/
structure SvnInfoResult where
  path : Option Str := none
  url : Option Str := none
  relativeUrl : Option Str := none
  repositoryRoot : Option Str := none
  repositoryUuid : Option Str := none
  revision : Option Str := none
  nodeKind : Option Str := none
  schedule : Option Str := none
  lastChangedAuthor : Option Str := none
  lastChangedRev : Option Str := none
  lastChangedDate : Option Str := none
deriving DecidableEq

/-- Split a line at the first `:` (`line.indexOf(':')`); `none` when there
is no colon. -/
def splitFirstChar (sep : Char) (s : Str) : Option (Str × Str) :=
  match s.dropWhile (· ≠ sep) with
  | _ :: rest => some (s.takeWhile (· ≠ sep), rest)
  | [] => none

/-- The `switch (key)` of `parseInfoOutput`: a recognized key assigns the
corresponding field, any other key leaves the record unchanged. -/
def assignInfoKey (info : SvnInfoResult) (key value : Str) : SvnInfoResult :=
  if key = "Path".toList then { info with path := some value }
  else if key = "URL".toList then { info with url := some value }
  else if key = "Relative URL".toList then { info with relativeUrl := some value }
  else if key = "Repository Root".toList then { info with repositoryRoot := some value }
  else if key = "Repository UUID".toList then { info with repositoryUuid := some value }
  else if key = "Revision".toList then { info with revision := some value }
  else if key = "Node Kind".toList then { info with nodeKind := some value }
  else if key = "Schedule".toList then { info with schedule := some value }
  else if key = "Last Changed Author".toList then { info with lastChangedAuthor := some value }
  else if key = "Last Changed Rev".toList then { info with lastChangedRev := some value }
  else if key = "Last Changed Date".toList then { info with lastChangedDate := some value }
  else info

/-- One line of `SvnReadService.parseInfoOutput`'s loop: lines without a
colon or with a blank value are skipped, otherwise the key assigns through
the switch. -/
def applyInfoLine (info : SvnInfoResult) (line : Str) : SvnInfoResult :=
  match splitFirstChar ':' line with
  | none => info
  | some kv =>
    if jsTrim kv.2 = [] then info
    else assignInfoKey info (jsTrim kv.1) (jsTrim kv.2)

/-- `SvnReadService.parseInfoOutput` (svn-base.service.spec.ts:795-846). -/
def parseInfoOutput (output : Str) : SvnInfoResult :=
  (splitOnChar '\n' output).foldl applyInfoLine {}

/-- `SvnReadService.info` (svn-base.service.spec.ts:592-605) after the
command has run: `null` (here `none`) when the command failed, otherwise
the parsed record — which is never `null`, even when empty. -/
def infoFromResult (result : SvnCommandResult) : Option SvnInfoResult :=
  if result.success then some (parseInfoOutput result.stdout) else none

/-! ## Claim C1 -/

/-- C1: for every non-empty string all of whose characters are in the safe
set (word characters, `-`, `.`, `/`, `:`, `=`, `@`, `%`), `escapeShellArg`
returns it unchanged; and for every string containing a single quote, the
POSIX branch wraps it in single quotes with every embedded quote replaced
by the four-character sequence `'\''`. -/
theorem C1_escapeShellArg_safe_and_quotes :
    (∀ s : Str, s ≠ [] → s.all isSafeShellChar = true →
      escapeShellArg .posix s = s) ∧
    (∀ s : Str, '\'' ∈ s →
      escapeShellArg .posix s =
        '\'' :: (s.flatMap fun c => if c = '\'' then ['\'', '\\', '\'', '\''] else [c]) ++ ['\'']) := by
  constructor
  · intro s hne hsafe
    simp [escapeShellArg, hne, hsafe]
  · intro s hmem
    have hne : s ≠ [] := by rintro rfl; simp at hmem
    have hnot : ¬(s.all isSafeShellChar = true) := by
      intro h
      have := List.all_eq_true.mp h _ hmem
      simp [isSafeShellChar, isWordChar, isAsciiAlpha, isAsciiUpper, isAsciiLower,
        isAsciiDigit] at this
    simp only [escapeShellArg, if_neg hne, if_neg hnot]
    have hfun : posixQuoteExpand = fun c => if c = '\'' then ['\'', '\\', '\'', '\''] else [c] := by
      funext c
      simp [posixQuoteExpand]
    rw [hfun]

/-- Witness for C1 at concrete inputs. -/
theorem C1_escapeShellArg_witness :
    escapeShellArg .posix "ab-c".toList = "ab-c".toList ∧
    escapeShellArg .posix ['a', '\'', 'b'] =
      ['\'', 'a', '\'', '\\', '\'', '\'', 'b', '\''] := by
  constructor
  · exact C1_escapeShellArg_safe_and_quotes.1 "ab-c".toList (by decide) (by decide)
  · rw [C1_escapeShellArg_safe_and_quotes.2 ['a', '\'', 'b'] (by decide)]
    decide

/-! ## Claim C3 -/

/-- C3 (amended): with a non-empty base configured, `resolvePath` returns
the base (one trailing slash stripped) for the root inputs `.`, `./` and
`/`; the empty string, being falsy, is returned unchanged instead. -/
theorem C3_resolvePath_root_collapsing :
    ∀ (options : SvnOptions) (b : Str), options.repositoryUrl = some b → b ≠ [] →
      resolvePath (some ['.']) options = some (stripOneTrailingSlash b) ∧
      resolvePath (some ['.', '/']) options = some (stripOneTrailingSlash b) ∧
      resolvePath (some ['/']) options = some (stripOneTrailingSlash b) ∧
      resolvePath (some []) options = some [] := by
  intro options b hb hbne
  have ht : strTruthy (some b) = true := by
    simp [strTruthy, hbne]
  refine ⟨?_, ?_, ?_, ?_⟩ <;>
    simp [resolvePath, hb, ht]

/-- Counterexample to C3 as stated: the empty string also denotes root, but
the `!pathStr` guard returns it unchanged instead of the base. -/
theorem C3_resolvePath_empty_counterexample :
    resolvePath (some []) { repositoryUrl := some "https://example.com/repo".toList } = some [] ∧
    some ([] : Str) ≠
      some (stripOneTrailingSlash "https://example.com/repo".toList) := by
  constructor
  · rfl
  · decide

/-- Witness for C3 at a concrete base with a trailing slash. -/
theorem C3_resolvePath_root_witness :
    resolvePath (some ['.']) { repositoryUrl := some "https://example.com/repo/".toList } =
      some "https://example.com/repo".toList := by
  have h := (C3_resolvePath_root_collapsing
    { repositoryUrl := some "https://example.com/repo/".toList }
    "https://example.com/repo/".toList rfl (by decide)).1
  rw [h]
  decide

/-! ## Claim C4 -/

/-- C4: with a base configured, `resolvePath` percent-encodes each joined
path segment after decoding pre-existing percent-encoding and HTML
entities: the two examples of the specification. -/
theorem C4_resolvePath_segment_encoding :
    resolvePath (some "path/with/äöü".toList)
        { repositoryUrl := some "https://example.com/repo".toList } =
      some "https://example.com/repo/path/with/%C3%A4%C3%B6%C3%BC".toList ∧
    resolvePath (some "330_Mole&amp;More".toList)
        { repositoryUrl := some "https://example.com/repo/Design".toList } =
      some "https://example.com/repo/Design/330_Mole%26More".toList := by
  constructor
  · rfl
  · rfl

/-! ## Claim C5 -/

/-- C5 (amended): an execution error carrying `stdout`, `stderr` and `code`
yields `success := false`, that code, the trimmed stdout, and the trimmed
stderr when the trim is non-empty — otherwise the error's message; an error
carrying none of these yields `success := false`, empty stdout, no exit
code, and the error's descriptive message. -/
theorem C5_handleCommandError_classification :
    (∀ (so se : Str) (code : Int) (msg : Option Str),
      handleCommandError (.execErr ⟨some so, some se, some code, msg⟩) =
        { success := false, stdout := jsTrim so,
          stderr := if jsTrim se ≠ [] then jsTrim se else jsOrStr msg [],
          code := some code }) ∧
    (∀ msg : Str, handleCommandError (.plainError msg) =
      { success := false, stdout := [], stderr := msg, code := none }) := by
  constructor
  · intro so se code msg
    by_cases h : jsTrim se = [] <;>
      simp [handleCommandError, jsOrStr, h, List.isEmpty_iff]
  · intro msg
    rfl

/-- Counterexample to C5 as stated: when the captured stderr trims to the
empty string, the result's stderr is the error message, not the trimmed
stderr. -/
theorem C5_stderr_fallback_counterexample :
    (handleCommandError (.execErr
        ⟨some " out ".toList, some "  ".toList, some 1, some "boom".toList⟩)).stderr =
      "boom".toList ∧
    jsTrim "  ".toList = [] := by
  constructor
  · rfl
  · rfl

/-- Witness for C5 at concrete errors. -/
theorem C5_handleCommandError_witness :
    handleCommandError (.execErr ⟨some " out ".toList, some " err ".toList, some 1, none⟩) =
      { success := false, stdout := "out".toList, stderr := "err".toList, code := some 1 } ∧
    handleCommandError (.plainError "spawn svn ENOENT".toList) =
      { success := false, stdout := [], stderr := "spawn svn ENOENT".toList, code := none } := by
  constructor
  · rw [C5_handleCommandError_classification.1 " out ".toList " err ".toList 1 none]
    decide
  · exact C5_handleCommandError_classification.2 "spawn svn ENOENT".toList

/-! ## Claim C6 -/

/-- Helper for C6: the attempt at one position fails whenever the open
literal is not a prefix there. -/
lemma attemptTagBlock_eq_none (tag : Str) (s : Str)
    (h : ¬(('<' :: tag) <+: s)) : attemptTagBlock tag s = none := by
  unfold attemptTagBlock
  rw [if_neg]
  intro hb
  exact h (List.isPrefixOf_iff_prefix.mp hb)

/-- Helper for C6: the root-block matcher finds nothing when the open
marker does not occur anywhere in the input. -/
lemma matchTagBlockGreedy_eq_none (tag : Str) :
    ∀ s : Str, ¬(('<' :: tag) <:+: s) → matchTagBlockGreedy tag s = none := by
  intro s
  induction s with
  | nil => intro _; rfl
  | cons c cs ih =>
    intro h
    have hnp : ¬(('<' :: tag) <+: (c :: cs)) := fun hp => h hp.isInfix
    have hni : ¬(('<' :: tag) <:+: cs) := fun hi => h (List.infix_cons hi)
    simp only [matchTagBlockGreedy, attemptTagBlock_eq_none tag (c :: cs) hnp]
    exact ih hni

/-- C6: when the expected root structural marker is absent (`<status` for
the status parser, `<log` for the log parser, `<lists` for the list
parser), the parser returns the empty list; the parsers are total
functions, so they never raise. -/
theorem C6_parsers_empty_without_root_marker :
    (∀ s : Str, ¬("<status".toList <:+: s) → parseStatusOutput s = []) ∧
    (∀ s : Str, ¬("<log".toList <:+: s) → parseLogOutput s = []) ∧
    (∀ s : Str, ¬("<lists".toList <:+: s) → parseListOutput s = []) := by
  refine ⟨fun s h => ?_, fun s h => ?_, fun s h => ?_⟩
  · unfold parseStatusOutput
    rw [matchTagBlockGreedy_eq_none "status".toList s h]
  · unfold parseLogOutput
    rw [matchTagBlockGreedy_eq_none "log".toList s h]
  · unfold parseListOutput
    rw [matchTagBlockGreedy_eq_none "lists".toList s h]

/-- Witness for C6 at concrete marker-free documents. -/
theorem C6_parsers_empty_witness :
    parseStatusOutput "<info>whatever</info>".toList = [] ∧
    parseLogOutput "plain text, no xml".toList = [] ∧
    parseListOutput "<entry><name>x</name></entry>".toList = [] := by
  refine ⟨?_, ?_, ?_⟩
  · exact C6_parsers_empty_without_root_marker.1 _ (by decide)
  · exact C6_parsers_empty_without_root_marker.2.1 _ (by decide)
  · exact C6_parsers_empty_without_root_marker.2.2 _ (by decide)

/-! ## Claim C7 -/

/-- The eleven keys `parseInfoOutput` recognizes. -/
def recognizedInfoKeys : List Str :=
  ["Path".toList, "URL".toList, "Relative URL".toList, "Repository Root".toList,
   "Repository UUID".toList, "Revision".toList, "Node Kind".toList, "Schedule".toList,
   "Last Changed Author".toList, "Last Changed Rev".toList, "Last Changed Date".toList]

/-- A line that contributes nothing: no colon, a blank value, or an
unrecognized key. -/
def infoLineIrrelevant (line : Str) : Bool :=
  match splitFirstChar ':' line with
  | none => true
  | some kv => (jsTrim kv.2).isEmpty || !(decide (jsTrim kv.1 ∈ recognizedInfoKeys))

/-- Helper for C7: an unrecognized key assigns nothing. -/
lemma assignInfoKey_unrecognized (info : SvnInfoResult) (key value : Str)
    (hk : key ∉ recognizedInfoKeys) : assignInfoKey info key value = info := by
  have h1 : key ≠ "Path".toList := fun e => hk (by rw [e]; decide)
  have h2 : key ≠ "URL".toList := fun e => hk (by rw [e]; decide)
  have h3 : key ≠ "Relative URL".toList := fun e => hk (by rw [e]; decide)
  have h4 : key ≠ "Repository Root".toList := fun e => hk (by rw [e]; decide)
  have h5 : key ≠ "Repository UUID".toList := fun e => hk (by rw [e]; decide)
  have h6 : key ≠ "Revision".toList := fun e => hk (by rw [e]; decide)
  have h7 : key ≠ "Node Kind".toList := fun e => hk (by rw [e]; decide)
  have h8 : key ≠ "Schedule".toList := fun e => hk (by rw [e]; decide)
  have h9 : key ≠ "Last Changed Author".toList := fun e => hk (by rw [e]; decide)
  have h10 : key ≠ "Last Changed Rev".toList := fun e => hk (by rw [e]; decide)
  have h11 : key ≠ "Last Changed Date".toList := fun e => hk (by rw [e]; decide)
  unfold assignInfoKey
  rw [if_neg h1, if_neg h2, if_neg h3, if_neg h4, if_neg h5, if_neg h6, if_neg h7,
    if_neg h8, if_neg h9, if_neg h10, if_neg h11]

/-- Helper for C7: an irrelevant line leaves the record unchanged. -/
lemma applyInfoLine_id (line : Str) (info : SvnInfoResult)
    (h : infoLineIrrelevant line = true) : applyInfoLine info line = info := by
  unfold infoLineIrrelevant at h
  unfold applyInfoLine
  cases hsp : splitFirstChar ':' line with
  | none => rfl
  | some kv =>
    rw [hsp] at h
    simp only [Bool.or_eq_true, List.isEmpty_iff, Bool.not_eq_true', decide_eq_false_iff_not] at h
    rcases h with hv | hk
    · simp [hv]
    · by_cases hv : jsTrim kv.2 = []
      · simp [hv]
      · dsimp only
        rw [if_neg hv, assignInfoKey_unrecognized info _ _ hk]

/-- Helper for C7: a fold over irrelevant lines is the identity. -/
lemma foldl_applyInfoLine_id :
    ∀ (lines : List Str) (info : SvnInfoResult),
      (∀ l ∈ lines, infoLineIrrelevant l = true) →
      lines.foldl applyInfoLine info = info := by
  intro lines
  induction lines with
  | nil => intro info _; rfl
  | cons l rest ih =>
    intro info h
    simp only [List.foldl_cons]
    rw [applyInfoLine_id l info (h l (by simp))]
    exact ih info fun x hx => h x (by simp [hx])

/-- C7 (amended): when every line of a successful info output lacks a
recognized key with a non-blank value, the info operation returns the empty
record — every field unset — rather than a literally absent (`null`)
result; unrecognized keys and blank values are ignored. -/
theorem C7_info_unrecognized_gives_empty_record :
    ∀ result : SvnCommandResult, result.success = true →
      (∀ line ∈ splitOnChar '\n' result.stdout, infoLineIrrelevant line = true) →
      infoFromResult result = some ({} : SvnInfoResult) := by
  intro result hs h
  unfold infoFromResult
  rw [if_pos hs]
  unfold parseInfoOutput
  rw [foldl_applyInfoLine_id _ _ h]

/-- Counterexample to C7 as stated: the caller does not receive an absent
result — `info` returns the (truthy) empty record, not `null`. -/
theorem C7_not_absent_counterexample :
    infoFromResult { success := true, stdout := "Foo: bar".toList, stderr := [] } ≠ none ∧
    infoFromResult { success := true, stdout := "Foo: bar".toList, stderr := [] } =
      some ({} : SvnInfoResult) := by
  refine ⟨?_, rfl⟩
  decide

/-- Witness for C7 at a concrete unrecognized output. -/
theorem C7_info_unrecognized_witness :
    infoFromResult ⟨true, "Unknown: x\nno colon line\nSchedule:  ".toList, [], none⟩ =
      some ({} : SvnInfoResult) :=
  C7_info_unrecognized_gives_empty_record _ rfl (by decide)

/-! ## Claim C8 -/

/-- Helper for C8: the working-revision field of one parsed entry. -/
lemma mkStatusItem_workingRevision (p c : Str) :
    (mkStatusItem p c).workingRevision =
      match scanFirst attemptWcStatus c with
      | some t => if isValidRevision t.2.1 then some t.2.1 else none
      | none => none := rfl

/-- C8 (amended): every working revision the status parser stores passed
`isValidRevision` — a `wc-status` revision attribute of `-1` or non-numeric
text leaves the working-revision field unset.  (Commit revision attributes
are stored verbatim, without this validation.) -/
theorem C8_workingRevision_validated :
    ∀ (xml : Str) (item : SvnStatusResult), item ∈ parseStatusOutput xml →
      ∀ r : Str, item.workingRevision = some r → isValidRevision r = true := by
  intro xml item hmem r hr
  unfold parseStatusOutput at hmem
  cases h : matchTagBlockGreedy "status".toList xml with
  | none => rw [h] at hmem; simp at hmem
  | some content =>
    rw [h] at hmem
    obtain ⟨a, -, rfl⟩ := List.mem_map.mp hmem
    rw [mkStatusItem_workingRevision] at hr
    split at hr
    · split at hr
      · cases hr
        assumption
      · simp at hr
    · simp at hr

/-- Status fixture whose `wc-status` and `commit` revisions are both the
invalid literal `-1`. -/
def c8FixtureInvalid : Str :=
  "<status><entry path=\"b.txt\"><wc-status item=\"added\" revision=\"-1\"><commit revision=\"-1\"><author>al</author><date>2024-01-01</date></commit></wc-status></entry></status>".toList

set_option maxRecDepth 8000 in
/-- Counterexample to C8 as stated: a `commit` revision attribute holding
`-1` is stored verbatim in the last-changed-revision field of the parsed
entity, not treated as absent (the working revision, in contrast, is
dropped). -/
theorem C8_commitRevision_unvalidated_counterexample :
    (parseStatusOutput c8FixtureInvalid).map (fun i => i.lastChangedRevision) =
      [some ['-', '1']] ∧
    (parseStatusOutput c8FixtureInvalid).map (fun i => i.workingRevision) = [none] ∧
    isValidRevision ['-', '1'] = false := by
  refine ⟨rfl, rfl, rfl⟩

/-- Status fixture with a valid working revision. -/
def c8FixtureValid : Str :=
  "<status><entry path=\"a.txt\"><wc-status item=\"modified\" revision=\"5\"></wc-status></entry></status>".toList

/-- Witness for C8 at a concrete parsed entry. -/
theorem C8_workingRevision_witness : isValidRevision ['5'] = true :=
  C8_workingRevision_validated c8FixtureValid
    ⟨"a.txt".toList, ['M'], some ['5'], none, none, none⟩
    (by decide) ['5'] rfl

/-! ## Claim C9 -/

/-- C9: the built command line is `svn <subcommand>` followed, in this fixed
order, by `--non-interactive` (unless explicitly disabled),
`--trust-server-cert` (if set), `--no-auth-cache` (if set), the
`--username`/`--password` flag+value pairs (only when present and
non-empty), and finally the resolved and escaped positional arguments, all
joined with single spaces; the merged options are returned alongside. -/
theorem C9_buildSvnArgs_fixed_order :
    ∀ (platform : Platform) (defaults : SvnOptions) (command : Str)
      (args : List Str) (options : SvnOptions),
      buildSvnArgs platform defaults command args options =
        ("svn ".toList ++ joinSep [' ']
          ([command]
            ++ (if (mergeOptions defaults options).nonInteractive ≠ some false
                then ["--non-interactive".toList] else [])
            ++ (if (mergeOptions defaults options).trustServerCert = some true
                then ["--trust-server-cert".toList] else [])
            ++ (if (mergeOptions defaults options).noAuthCache = some true
                then ["--no-auth-cache".toList] else [])
            ++ (if strTruthy (mergeOptions defaults options).username
                then ["--username".toList, (mergeOptions defaults options).username.getD []]
                else [])
            ++ (if strTruthy (mergeOptions defaults options).password
                then ["--password".toList, (mergeOptions defaults options).password.getD []]
                else [])
            ++ (resolvePathArgs args (mergeOptions defaults options)).map
                (escapeShellArg platform)),
         mergeOptions defaults options) := by
  intro platform defaults command args options
  unfold buildSvnArgs addCommonFlags addAuthFlags
  split_ifs <;> simp_all [List.append_assoc]

/-! ## Claim C10 -/

/-- C10: `setDefaultOptions` merges the new options over the stored
defaults field by field: after `setDefaultOptions a` then
`setDefaultOptions b`, every field present in `b` has `b`'s value, and
every field present in `a` but absent from `b` keeps `a`'s value. -/
theorem C10_setDefaultOptions_field_merge :
    ∀ d a b : SvnOptions,
      (∀ v, b.username = some v →
        (setDefaultOptions (setDefaultOptions d a) b).username = some v) ∧
      (b.username = none → ∀ v, a.username = some v →
        (setDefaultOptions (setDefaultOptions d a) b).username = some v) ∧
      (∀ v, b.password = some v →
        (setDefaultOptions (setDefaultOptions d a) b).password = some v) ∧
      (b.password = none → ∀ v, a.password = some v →
        (setDefaultOptions (setDefaultOptions d a) b).password = some v) ∧
      (∀ v, b.repositoryUrl = some v →
        (setDefaultOptions (setDefaultOptions d a) b).repositoryUrl = some v) ∧
      (b.repositoryUrl = none → ∀ v, a.repositoryUrl = some v →
        (setDefaultOptions (setDefaultOptions d a) b).repositoryUrl = some v) ∧
      (∀ v, b.nonInteractive = some v →
        (setDefaultOptions (setDefaultOptions d a) b).nonInteractive = some v) ∧
      (b.nonInteractive = none → ∀ v, a.nonInteractive = some v →
        (setDefaultOptions (setDefaultOptions d a) b).nonInteractive = some v) ∧
      (∀ v, b.trustServerCert = some v →
        (setDefaultOptions (setDefaultOptions d a) b).trustServerCert = some v) ∧
      (b.trustServerCert = none → ∀ v, a.trustServerCert = some v →
        (setDefaultOptions (setDefaultOptions d a) b).trustServerCert = some v) ∧
      (∀ v, b.noAuthCache = some v →
        (setDefaultOptions (setDefaultOptions d a) b).noAuthCache = some v) ∧
      (b.noAuthCache = none → ∀ v, a.noAuthCache = some v →
        (setDefaultOptions (setDefaultOptions d a) b).noAuthCache = some v) := by
  intro d a b
  refine ⟨?_, ?_, ?_, ?_, ?_, ?_, ?_, ?_, ?_, ?_, ?_, ?_⟩ <;>
    first
    | (intro v hb; simp [setDefaultOptions, spreadMerge, hb, Option.orElse])
    | (intro hb v ha; simp [setDefaultOptions, spreadMerge, hb, ha, Option.orElse])

/-- First options record of the C10 witness. -/
def c10OptA : SvnOptions :=
  { username := some "u1".toList, password := some "p1".toList }

/-- Second options record of the C10 witness. -/
def c10OptB : SvnOptions :=
  { username := some "u2".toList }

/-- Witness for C10 at concrete option records: the username comes from the
second call, the password survives from the first. -/
theorem C10_setDefaultOptions_witness :
    (setDefaultOptions (setDefaultOptions {} c10OptA) c10OptB).username =
      some "u2".toList ∧
    (setDefaultOptions (setDefaultOptions {} c10OptA) c10OptB).password =
      some "p1".toList := by
  constructor
  · exact (C10_setDefaultOptions_field_merge {} c10OptA c10OptB).1 "u2".toList rfl
  · exact (C10_setDefaultOptions_field_merge {} c10OptA c10OptB).2.2.2.1 rfl "p1".toList rfl

/-! ## Claim C2 -/

/-- Counterexample to C2 as stated: with a base configured, re-resolving an
already-resolved URL joins it to the base again (and percent-encodes its
scheme separator), so `resolvePath` is not idempotent. -/
theorem C2_resolvePath_rebase_counterexample :
    resolvePath (some "test/path".toList)
        { repositoryUrl := some "https://example.com/repo".toList } =
      some "https://example.com/repo/test/path".toList ∧
    resolvePath (some "https://example.com/repo/test/path".toList)
        { repositoryUrl := some "https://example.com/repo".toList } =
      some "https://example.com/repo/https%3A/example.com/repo/test/path".toList ∧
    "https://example.com/repo/https%3A/example.com/repo/test/path".toList ≠
      "https://example.com/repo/test/path".toList := by
  refine ⟨rfl, rfl, ?_⟩
  decide

/-! ### Percent-encoding round-trip (support for the amended C2) -/

/-- One character's encoding step shared by `encodeURIComponent` and
`pathEncode`: characters selected by the predicate are UTF-8
percent-escaped, the others pass through. -/
def encChar (p : Char → Bool) (c : Char) : Str :=
  if p c then (utf8Enc c.toNat).flatMap pctByte else [c]

/-- One character's token-stream image: escaped characters contribute their
UTF-8 bytes, the others themselves. -/
def tokChar (p : Char → Bool) (c : Char) : List (Sum Char Nat) :=
  if p c then (utf8Enc c.toNat).map Sum.inr else [Sum.inl c]

lemma utf8Enc_ne_nil (n : Nat) : utf8Enc n ≠ [] := by
  unfold utf8Enc
  split_ifs <;> simp

lemma utf8Enc_bytes_lt (n : Nat) (hn : n < 0x110000) :
    ∀ b ∈ utf8Enc n, b < 256 := by
  intro b hb
  unfold utf8Enc at hb
  split_ifs at hb <;> simp at hb <;> omega

lemma hexVal_hexUpper (n : Nat) (h : n < 16) : hexVal (hexUpper n) = some n := by
  interval_cases n <;> decide

lemma pctTokens_cons_ne (c : Char) (l : Str) (h : c ≠ '%') :
    pctTokens (c :: l) = (pctTokens l).map (Sum.inl c :: ·) := by
  conv_lhs => rw [pctTokens.eq_def]
  split
  all_goals simp_all

lemma pctTokens_pctByte (b : Nat) (hb : b < 256) (rest : Str) :
    pctTokens (pctByte b ++ rest) = (pctTokens rest).map (Sum.inr b :: ·) := by
  have h1 : b / 16 < 16 := by omega
  have h2 : b % 16 < 16 := by omega
  have hb' : b / 16 * 16 + b % 16 = b := by omega
  show pctTokens ('%' :: hexUpper (b / 16) :: hexUpper (b % 16) :: rest) = _
  rw [pctTokens]
  simp [hexVal_hexUpper _ h1, hexVal_hexUpper _ h2, hb']

lemma pctTokens_bytes (bs : List Nat) (hbs : ∀ b ∈ bs, b < 256) (rest : Str) :
    pctTokens (bs.flatMap pctByte ++ rest) =
      (pctTokens rest).map (bs.map Sum.inr ++ ·) := by
  induction bs with
  | nil => simp
  | cons b bs ih =>
    simp only [List.flatMap_cons, List.append_assoc]
    rw [pctTokens_pctByte b (hbs b (by simp)), ih (fun x hx => hbs x (by simp [hx]))]
    cases pctTokens rest <;> simp

lemma char_toNat_valid (c : Char) : Nat.isValidChar c.toNat := c.valid

lemma char_toNat_lt (c : Char) : c.toNat < 0x110000 := by
  have h := char_toNat_valid c
  unfold Nat.isValidChar at h
  omega

lemma pctTokens_encode (p : Char → Bool) (s : Str)
    (h : ∀ c ∈ s, p c = false → c ≠ '%') :
    pctTokens (s.flatMap (encChar p)) = some (s.flatMap (tokChar p)) := by
  induction s with
  | nil => rfl
  | cons c rest ih =>
    have ih' := ih fun x hx => h x (by simp [hx])
    simp only [List.flatMap_cons]
    by_cases hp : p c = true
    · rw [encChar, if_pos hp, tokChar, if_pos hp]
      rw [pctTokens_bytes _ (utf8Enc_bytes_lt c.toNat (char_toNat_lt c)), ih']
      rfl
    · have hc : c ≠ '%' := h c (by simp) (by simpa using hp)
      rw [encChar, if_neg hp, tokChar, if_neg hp]
      show pctTokens (c :: rest.flatMap (encChar p)) = _
      rw [pctTokens_cons_ne c _ hc, ih']
      rfl

/-- UTF-8 byte image of a character list. -/
def encBytes (pre : Str) : List Nat := pre.flatMap fun c => utf8Enc c.toNat

set_option maxHeartbeats 1000000 in
lemma utf8Split_enc (n : Nat) (hv : Nat.isValidChar n) (bs : List Nat) :
    utf8Split (utf8Enc n ++ bs) = some (n, bs) := by
  have hsur : n < 0xD800 ∨ 0xDFFF < n ∧ n < 0x110000 := hv
  unfold utf8Enc
  split_ifs with h1 h2 h3
  · show utf8Split (n :: bs) = _
    unfold utf8Split
    simp [h1]
  · show utf8Split ((0xC0 + n / 64) :: (0x80 + n % 64) :: bs) = _
    unfold utf8Split
    dsimp only
    split_ifs with g1 g2 g3 g4 <;>
      first
      | (exfalso;
         simp_all only [Bool.and_eq_true, Bool.not_eq_true', Bool.and_eq_false_iff,
           decide_eq_true_eq, decide_eq_false_iff_not, not_le, not_lt];
         omega)
      | (simp only [Option.some.injEq, Prod.mk.injEq, and_true]; omega)
  · show utf8Split
        ((0xE0 + n / 4096) :: (0x80 + n / 64 % 64) :: (0x80 + n % 64) :: bs) = _
    unfold utf8Split
    dsimp only
    split_ifs with g1 g2 g3 g4 g5 g6 <;>
      first
      | (exfalso;
         simp_all only [Bool.and_eq_true, Bool.not_eq_true', Bool.and_eq_false_iff,
           decide_eq_true_eq, decide_eq_false_iff_not, not_le, not_lt];
         omega)
      | (simp only [Option.some.injEq, Prod.mk.injEq, and_true]; omega)
  · show utf8Split
        ((0xF0 + n / 262144) :: (0x80 + n / 4096 % 64) :: (0x80 + n / 64 % 64) ::
          (0x80 + n % 64) :: bs) = _
    unfold utf8Split
    dsimp only
    split_ifs with g1 g2 g3 g4 g5 g6 g7 g8 <;>
      first
      | (exfalso;
         simp_all only [Bool.and_eq_true, Bool.not_eq_true', Bool.and_eq_false_iff,
           decide_eq_true_eq, decide_eq_false_iff_not, not_le, not_lt];
         omega)
      | (simp only [Option.some.injEq, Prod.mk.injEq, and_true]; omega)

lemma length_le_encBytes (pre : Str) : pre.length ≤ (encBytes pre).length := by
  induction pre with
  | nil => simp [encBytes]
  | cons c rest ih =>
    show (c :: rest).length ≤ (utf8Enc c.toNat ++ encBytes rest).length
    have h1 : 0 < (utf8Enc c.toNat).length :=
      List.length_pos.mpr (utf8Enc_ne_nil c.toNat)
    simp only [List.length_cons, List.length_append]
    omega

lemma utf8DecodeAllAux_encBytes :
    ∀ (pre : Str) (fuel : Nat), pre.length ≤ fuel →
      utf8DecodeAllAux fuel (encBytes pre) = some (pre.map Char.toNat) := by
  intro pre
  induction pre with
  | nil =>
    intro fuel _
    cases fuel <;> rfl
  | cons c pre' ih =>
    intro fuel hf
    obtain ⟨f', rfl⟩ : ∃ f', fuel = f' + 1 := ⟨fuel - 1, by simp at hf; omega⟩
    obtain ⟨b, bs0, henc⟩ : ∃ b bs0, utf8Enc c.toNat = b :: bs0 := by
      cases h : utf8Enc c.toNat with
      | nil => exact absurd h (utf8Enc_ne_nil _)
      | cons b bs0 => exact ⟨b, bs0, rfl⟩
    show utf8DecodeAllAux (f' + 1) (utf8Enc c.toNat ++ encBytes pre') = _
    rw [henc, List.cons_append, utf8DecodeAllAux, ← List.cons_append, ← henc,
      utf8Split_enc c.toNat (char_toNat_valid c)]
    dsimp only
    rw [ih f' (by simp at hf; omega)]
    rfl

lemma utf8DecodeAll_encBytes (pre : Str) :
    utf8DecodeAll (encBytes pre) = some (pre.map Char.toNat) :=
  utf8DecodeAllAux_encBytes pre _ (length_le_encBytes pre)

lemma groupDecode_inr_run (bs : List Nat) (run : List Nat) (ts : List (Sum Char Nat)) :
    groupDecode run (bs.map Sum.inr ++ ts) = groupDecode (bs.reverse ++ run) ts := by
  induction bs generalizing run with
  | nil => simp
  | cons b bs ih =>
    show groupDecode run (Sum.inr b :: (bs.map Sum.inr ++ ts)) = _
    rw [groupDecode, ih]
    simp

lemma groupDecode_flush (pre : Str) :
    (if (encBytes pre).reverse = [] then some []
     else (utf8DecodeAll ((encBytes pre).reverse).reverse).map (·.map charOfCp)) =
      some pre := by
  by_cases hp : pre = []
  · subst hp
    rfl
  · have hne : encBytes pre ≠ [] := by
      cases pre with
      | nil => exact absurd rfl hp
      | cons c rest =>
        show utf8Enc c.toNat ++ encBytes rest ≠ []
        simp [utf8Enc_ne_nil]
    rw [if_neg (by simpa using hne), List.reverse_reverse, utf8DecodeAll_encBytes]
    have hcc : charOfCp ∘ Char.toNat = id := by
      funext c
      show charOfCp c.toNat = c
      exact Char.ofNat_toNat c
    simp [List.map_map, hcc]

lemma groupDecode_tokens (p : Char → Bool) (s : Str) :
    ∀ pre : Str, groupDecode ((encBytes pre).reverse) (s.flatMap (tokChar p)) =
      some (pre ++ s) := by
  induction s with
  | nil =>
    intro pre
    show (if (encBytes pre).reverse = [] then some []
      else (utf8DecodeAll ((encBytes pre).reverse).reverse).map (·.map charOfCp)) = _
    rw [groupDecode_flush, List.append_nil]
  | cons c rest ih =>
    intro pre
    have ih0 : groupDecode [] (rest.flatMap (tokChar p)) = some rest := by
      have := ih []
      simpa [encBytes] using this
    simp only [List.flatMap_cons]
    by_cases hp : p c = true
    · rw [tokChar, if_pos hp, groupDecode_inr_run]
      have henc : (utf8Enc c.toNat).reverse ++ (encBytes pre).reverse =
          (encBytes (pre ++ [c])).reverse := by
        show _ = (List.flatMap _ _).reverse
        rw [List.flatMap_append, List.reverse_append]
        simp [encBytes]
      rw [henc, ih (pre ++ [c])]
      simp
    · rw [tokChar, if_neg hp]
      show groupDecode ((encBytes pre).reverse) (Sum.inl c :: rest.flatMap (tokChar p)) = _
      rw [groupDecode, groupDecode_flush, ih0]

/-- Round trip: decoding any partially percent-encoded string recovers the
original, provided the unencoded characters are not `%`. -/
lemma decode_partialEncode (p : Char → Bool) (s : Str)
    (h : ∀ c ∈ s, p c = false → c ≠ '%') :
    decodeURIComponentJs (s.flatMap (encChar p)) = some s := by
  unfold decodeURIComponentJs
  rw [pctTokens_encode p s h]
  have := groupDecode_tokens p s []
  simpa [encBytes] using this

lemma flatMap_ext {α β : Type} (l : List α) (f g : α → List β)
    (h : ∀ a ∈ l, f a = g a) : l.flatMap f = l.flatMap g := by
  induction l with
  | nil => rfl
  | cons x xs ih =>
    simp only [List.flatMap_cons]
    rw [h x (by simp), ih fun a ha => h a (by simp [ha])]

lemma encodeURIComponent_eq_encChar (s : Str) :
    encodeURIComponent s = s.flatMap (encChar fun c => !isUriUnreserved c) := by
  apply flatMap_ext
  intro c _
  by_cases h : isUriUnreserved c = true <;> simp [encChar, h]

lemma pathEncode_eq_encChar (s : Str) :
    pathEncode s = s.flatMap (encChar inPathEncodeSet) := rfl

/-- `decodeURIComponent ∘ encodeURIComponent` is the identity. -/
lemma decode_encodeURIComponent (s : Str) :
    decodeURIComponentJs (encodeURIComponent s) = some s := by
  rw [encodeURIComponent_eq_encChar]
  apply decode_partialEncode
  intro c _ hfalse he
  subst he
  have : isUriUnreserved '%' = false := by decide
  simp_all

/-- Decoding a path-encoded string recovers it when it had no raw `%`. -/
lemma decode_pathEncode (s : Str) (h : '%' ∉ s) :
    decodeURIComponentJs (pathEncode s) = some s := by
  rw [pathEncode_eq_encChar]
  exact decode_partialEncode _ s fun c hc _ => fun he => h (he ▸ hc)

lemma pctTokens_no_pct (s : Str) (h : '%' ∉ s) :
    pctTokens s = some (s.map Sum.inl) := by
  induction s with
  | nil => rfl
  | cons c rest ih =>
    rw [pctTokens_cons_ne c rest (fun e => h (by simp [e]))]
    rw [ih fun hm => h (by simp [hm])]
    rfl

lemma groupDecode_inl_map (s : Str) : groupDecode [] (s.map Sum.inl) = some s := by
  induction s with
  | nil => rfl
  | cons c rest ih =>
    show groupDecode [] (Sum.inl c :: rest.map Sum.inl) = _
    rw [groupDecode, ih]
    rfl

/-- `decodeURIComponent` is the identity on `%`-free strings. -/
lemma decodeURIComponentJs_no_pct (s : Str) (h : '%' ∉ s) :
    decodeURIComponentJs s = some s := by
  unfold decodeURIComponentJs
  rw [pctTokens_no_pct s h]
  dsimp only
  exact groupDecode_inl_map s

lemma replaceAllAux_id (c0 : Char) (pat' rep : Str) :
    ∀ (fuel : Nat) (s : Str), c0 ∉ s → replaceAllAux (c0 :: pat') rep fuel s = s := by
  intro fuel
  induction fuel with
  | zero => intro s _; cases s <;> rfl
  | succ f ih =>
    intro s hs
    cases s with
    | nil => rfl
    | cons c rest =>
      rw [replaceAllAux]
      have hpre : ¬((c0 :: pat') ≠ [] ∧ (c0 :: pat').isPrefixOf (c :: rest)) := by
        rintro ⟨-, hp⟩
        have := List.isPrefixOf_iff_prefix.mp hp
        rw [List.cons_prefix_cons] at this
        exact hs (by simp [this.1])
      rw [if_neg hpre]
      congr 1
      exact ih rest fun hm => hs (by simp [hm])

/-- A global literal replace whose pattern starts with a character the
string does not contain is the identity. -/
lemma replaceAll_id (pat rep s : Str) (c0 : Char) (hp : pat.head? = some c0)
    (h : c0 ∉ s) : replaceAll pat rep s = s := by
  obtain ⟨pat', rfl⟩ : ∃ pat', pat = c0 :: pat' := by
    cases pat with
    | nil => simp at hp
    | cons x xs => exact ⟨xs, by simp_all⟩
  exact replaceAllAux_id c0 pat' rep s.length s h

lemma replaceDecEntitiesAux_id :
    ∀ (fuel : Nat) (s : Str), '&' ∉ s → replaceDecEntitiesAux fuel s = s := by
  intro fuel
  induction fuel with
  | zero => intro s _; cases s <;> rfl
  | succ f ih =>
    intro s hs
    cases s with
    | nil => rfl
    | cons c rest =>
      have hc : c ≠ '&' := fun e => hs (by simp [e])
      have hrest : '&' ∉ rest := fun hm => hs (by simp [hm])
      rw [replaceDecEntitiesAux.eq_def]
      split <;> simp_all

lemma replaceDecEntities_id (s : Str) (h : '&' ∉ s) : replaceDecEntities s = s :=
  replaceDecEntitiesAux_id s.length s h

lemma replaceHexEntitiesAux_id :
    ∀ (fuel : Nat) (s : Str), '&' ∉ s → replaceHexEntitiesAux fuel s = s := by
  intro fuel
  induction fuel with
  | zero => intro s _; cases s <;> rfl
  | succ f ih =>
    intro s hs
    cases s with
    | nil => rfl
    | cons c rest =>
      have hc : c ≠ '&' := fun e => hs (by simp [e])
      have hrest : '&' ∉ rest := fun hm => hs (by simp [hm])
      rw [replaceHexEntitiesAux.eq_def]
      split <;> simp_all

lemma replaceHexEntities_id (s : Str) (h : '&' ∉ s) : replaceHexEntities s = s :=
  replaceHexEntitiesAux_id s.length s h

/-- The HTML-entity replacement chain is the identity on `&`-free strings. -/
lemma entityChain_id (s : Str) (h : '&' ∉ s) :
    replaceHexEntities (replaceDecEntities
      (replaceAll "&#x2F;".toList "/".toList
        (replaceAll "&#x27;".toList "\'".toList
          (replaceAll "&#39;".toList "\'".toList
            (replaceAll "&quot;".toList "\"".toList
              (replaceAll "&gt;".toList ">".toList
                (replaceAll "&lt;".toList "<".toList
                  (replaceAll "&amp;".toList "&".toList s)))))))) = s := by
  rw [replaceAll_id "&amp;".toList "&".toList s '&' (by rfl) h]
  rw [replaceAll_id "&lt;".toList "<".toList s '&' (by rfl) h]
  rw [replaceAll_id "&gt;".toList ">".toList s '&' (by rfl) h]
  rw [replaceAll_id "&quot;".toList "\"".toList s '&' (by rfl) h]
  rw [replaceAll_id "&#39;".toList "\'".toList s '&' (by rfl) h]
  rw [replaceAll_id "&#x27;".toList "\'".toList s '&' (by rfl) h]
  rw [replaceAll_id "&#x2F;".toList "/".toList s '&' (by rfl) h]
  rw [replaceDecEntities_id s h, replaceHexEntities_id s h]

/-- `decodeHtmlEntities` is the identity on strings free of `%` and `&`. -/
lemma decodeHtmlEntities_id (s : Str) (h1 : '%' ∉ s) (h2 : '&' ∉ s) :
    decodeHtmlEntities s = s := by
  unfold decodeHtmlEntities
  rw [decodeURIComponentJs_no_pct s h1]
  exact entityChain_id s h2

/-- `decodeHtmlEntities` undoes a partial percent-encoding of an `&`-free
string whose unencoded characters are not `%`. -/
lemma decodeHtmlEntities_encChar (p : Char → Bool) (s : Str) (hamp : '&' ∉ s)
    (hp : ∀ c ∈ s, p c = false → c ≠ '%') :
    decodeHtmlEntities (s.flatMap (encChar p)) = s := by
  unfold decodeHtmlEntities
  rw [decode_partialEncode p s hp]
  exact entityChain_id s hamp

lemma char_le_iff (a b : Char) : (a ≤ b) ↔ a.toNat ≤ b.toNat := by
  simp [Char.le_def, UInt32.le_def, BitVec.le_def, Char.toNat, UInt32.toNat]

lemma char_eq_iff (a b : Char) : (a = b) ↔ a.toNat = b.toNat := by
  constructor
  · intro h
    rw [h]
  · intro h
    rw [← Char.ofNat_toNat a, h, Char.ofNat_toNat b]

/-- The facts needed of a serialized output character: it is not re-encoded
by the URL path setter and is not a separator the parser splits on. -/
def goodOut (c : Char) : Prop :=
  inPathEncodeSet c = false ∧ c ≠ '/' ∧ c ≠ '?' ∧ c ≠ '#'

lemma goodOut_of_toNat (c : Char) (h1 : 0x20 ≤ c.toNat) (h2 : c.toNat ≤ 0x7E)
    (hno : c.toNat ≠ 32 ∧ c.toNat ≠ 34 ∧ c.toNat ≠ 60 ∧ c.toNat ≠ 62 ∧ c.toNat ≠ 96 ∧
      c.toNat ≠ 123 ∧ c.toNat ≠ 125 ∧ c.toNat ≠ 63 ∧ c.toNat ≠ 35 ∧ c.toNat ≠ 47) :
    goodOut c := by
  obtain ⟨n1, n2, n3, n4, n5, n6, n7, n8, n9, n10⟩ := hno
  refine ⟨?_, ?_, ?_, ?_⟩
  · unfold inPathEncodeSet
    have e1 : ¬(c.toNat < 0x20) := by omega
    have e2 : ¬(c.toNat > 0x7E) := by omega
    have q1 : c ≠ ' ' := fun e => n1 (by rw [char_eq_iff] at e; exact e)
    have q2 : c ≠ '"' := fun e => n2 (by rw [char_eq_iff] at e; exact e)
    have q3 : c ≠ '<' := fun e => n3 (by rw [char_eq_iff] at e; exact e)
    have q4 : c ≠ '>' := fun e => n4 (by rw [char_eq_iff] at e; exact e)
    have q5 : ¬(c.toNat = 0x60) := n5
    have q6 : c ≠ '{' := fun e => n6 (by rw [char_eq_iff] at e; exact e)
    have q7 : c ≠ '}' := fun e => n7 (by rw [char_eq_iff] at e; exact e)
    have q8 : c ≠ '?' := fun e => n8 (by rw [char_eq_iff] at e; exact e)
    have q9 : c ≠ '#' := fun e => n9 (by rw [char_eq_iff] at e; exact e)
    simp [e1, e2, q1, q2, q3, q4, q5, q6, q7, q8, q9]
  · exact fun e => n10 (by rw [char_eq_iff] at e; exact e)
  · exact fun e => n8 (by rw [char_eq_iff] at e; exact e)
  · exact fun e => n9 (by rw [char_eq_iff] at e; exact e)

lemma isUriUnreserved_goodOut (c : Char) (h : isUriUnreserved c = true) : goodOut c := by
  unfold isUriUnreserved isAsciiAlpha isAsciiUpper isAsciiLower isAsciiDigit at h
  simp only [Bool.or_eq_true, Bool.and_eq_true, decide_eq_true_eq, char_le_iff,
    char_eq_iff] at h
  simp only [show ('A' : Char).toNat = 65 from rfl, show ('Z' : Char).toNat = 90 from rfl,
    show ('a' : Char).toNat = 97 from rfl, show ('z' : Char).toNat = 122 from rfl,
    show ('0' : Char).toNat = 48 from rfl, show ('9' : Char).toNat = 57 from rfl,
    show ('-' : Char).toNat = 45 from rfl, show ('_' : Char).toNat = 95 from rfl,
    show ('.' : Char).toNat = 46 from rfl, show ('!' : Char).toNat = 33 from rfl,
    show ('~' : Char).toNat = 126 from rfl, show ('*' : Char).toNat = 42 from rfl,
    show ('\'' : Char).toNat = 39 from rfl, show ('(' : Char).toNat = 40 from rfl,
    show (')' : Char).toNat = 41 from rfl] at h
  apply goodOut_of_toNat c <;> omega

lemma hexOrPct_goodOut (c : Char)
    (h : c = '%' ∨ isAsciiDigit c = true ∨ ('A' ≤ c ∧ c ≤ 'F')) : goodOut c := by
  unfold isAsciiDigit at h
  simp only [Bool.and_eq_true, decide_eq_true_eq, char_le_iff, char_eq_iff] at h
  simp only [show ('%' : Char).toNat = 37 from rfl, show ('0' : Char).toNat = 48 from rfl,
    show ('9' : Char).toNat = 57 from rfl, show ('A' : Char).toNat = 65 from rfl,
    show ('F' : Char).toNat = 70 from rfl] at h
  apply goodOut_of_toNat c <;> omega

lemma hexUpper_class (n : Nat) (h : n < 16) :
    isAsciiDigit (hexUpper n) = true ∨ ('A' ≤ hexUpper n ∧ hexUpper n ≤ 'F') := by
  interval_cases n <;> decide

lemma pctByte_goodOut (b : Nat) (hb : b < 256) : ∀ c ∈ pctByte b, goodOut c := by
  intro c hc
  have h1 : b / 16 < 16 := by omega
  have h2 : b % 16 < 16 := by omega
  simp only [pctByte, List.mem_cons, List.not_mem_nil, or_false] at hc
  rcases hc with rfl | rfl | rfl
  · exact hexOrPct_goodOut _ (Or.inl rfl)
  · exact hexOrPct_goodOut _ (Or.inr (hexUpper_class _ h1))
  · exact hexOrPct_goodOut _ (Or.inr (hexUpper_class _ h2))

lemma encChar_goodOut (p : Char → Bool) (c : Char)
    (hc : p c = false → goodOut c) : ∀ c' ∈ encChar p c, goodOut c' := by
  intro c' hc'
  unfold encChar at hc'
  by_cases hp : p c = true
  · rw [if_pos hp] at hc'
    obtain ⟨b, hb, hcb⟩ := List.mem_flatMap.mp hc'
    exact pctByte_goodOut b (utf8Enc_bytes_lt c.toNat (char_toNat_lt c) b hb) c' hcb
  · rw [if_neg hp] at hc'
    simp only [List.mem_singleton] at hc'
    subst hc'
    exact hc (by simpa using hp)

lemma encodeURIComponent_goodOut (s : Str) :
    ∀ c' ∈ encodeURIComponent s, goodOut c' := by
  intro c' hc'
  rw [encodeURIComponent_eq_encChar] at hc'
  obtain ⟨c, hcs, hcc⟩ := List.mem_flatMap.mp hc'
  refine encChar_goodOut _ c ?_ c' hcc
  intro hfalse
  exact isUriUnreserved_goodOut c (by simpa using hfalse)

lemma pathEncode_goodOut (s : Str)
    (hs : ∀ c ∈ s, c ≠ '/' ∧ c ≠ '?' ∧ c ≠ '#') :
    ∀ c' ∈ pathEncode s, goodOut c' := by
  intro c' hc'
  rw [pathEncode_eq_encChar] at hc'
  obtain ⟨c, hcs, hcc⟩ := List.mem_flatMap.mp hc'
  refine encChar_goodOut _ c ?_ c' hcc
  intro hfalse
  exact ⟨hfalse, hs c hcs⟩

lemma takeWhile_append_stop (q : Char → Bool) (xs : Str) (y : Char) (ys : Str)
    (hxs : ∀ c ∈ xs, q c = true) (hy : q y = false) :
    (xs ++ y :: ys).takeWhile q = xs ∧ (xs ++ y :: ys).dropWhile q = y :: ys := by
  induction xs with
  | nil => simp [List.takeWhile_cons, List.dropWhile_cons, hy]
  | cons x xs ih =>
    have hx : q x = true := hxs x (by simp)
    have h := ih fun c hc => hxs c (by simp [hc])
    simp [List.takeWhile_cons, List.dropWhile_cons, hx, h.1, h.2]

lemma takeWhile_all (q : Char → Bool) (xs : Str) (h : ∀ c ∈ xs, q c = true) :
    xs.takeWhile q = xs ∧ xs.dropWhile q = [] := by
  induction xs with
  | nil => simp
  | cons x xs ih =>
    have hx : q x = true := h x (by simp)
    have h' := ih fun c hc => h c (by simp [hc])
    simp [List.takeWhile_cons, List.dropWhile_cons, hx, h'.1, h'.2]

lemma map_stable (f : Char → Char) (l : Str) (h : ∀ c ∈ l, f c = c) :
    l.map f = l := by
  induction l with
  | nil => rfl
  | cons x xs ih => simp [h x (by simp), ih fun c hc => h c (by simp [hc])]

lemma splitOnChar_no_sep (sep : Char) (s : Str) (h : ∀ c ∈ s, c ≠ sep) :
    splitOnChar sep s = [s] := by
  induction s with
  | nil => rfl
  | cons c rest ih =>
    have hc : ¬(c = sep) := h c (by simp)
    simp only [splitOnChar, if_neg hc, ih fun c hc => h c (by simp [hc])]
    rfl

lemma splitOnChar_cons_sep (sep : Char) (rest : Str) :
    splitOnChar sep (sep :: rest) = [] :: splitOnChar sep rest := by
  simp [splitOnChar]

lemma splitOnChar_append_sep (sep : Char) (xs ys : Str) (h : ∀ c ∈ xs, c ≠ sep) :
    splitOnChar sep (xs ++ sep :: ys) = xs :: splitOnChar sep ys := by
  induction xs with
  | nil => simpa using splitOnChar_cons_sep sep ys
  | cons c xs ih =>
    have hc : ¬(c = sep) := h c (by simp)
    have ih' := ih fun c hc => h c (by simp [hc])
    simp only [List.cons_append, splitOnChar, if_neg hc, List.append_eq]
    rw [ih']
    simp

lemma joinSep_cons_cons (sep : Str) (x y : Str) (t : List Str) :
    joinSep sep (x :: y :: t) = x ++ sep ++ joinSep sep (y :: t) := rfl

lemma joinSep_nil_cons (sep : Str) (L : List Str) (h : L ≠ []) :
    joinSep sep ([] :: L) = sep ++ joinSep sep L := by
  cases L with
  | nil => exact absurd rfl h
  | cons y t => rfl

lemma splitOnChar_joinSep (sep : Char) (segs : List Str) (hne : segs ≠ [])
    (h : ∀ seg ∈ segs, ∀ c ∈ seg, c ≠ sep) :
    splitOnChar sep (joinSep [sep] segs) = segs := by
  induction segs with
  | nil => exact absurd rfl hne
  | cons x t ih =>
    cases t with
    | nil => exact splitOnChar_no_sep sep x (h x (by simp))
    | cons y t' =>
      rw [joinSep_cons_cons]
      have he : x ++ [sep] ++ joinSep [sep] (y :: t') =
          x ++ sep :: joinSep [sep] (y :: t') := by simp
      rw [he, splitOnChar_append_sep sep x _ (h x (by simp))]
      rw [ih (by simp) fun seg hs c hc => h seg (by simp [hs]) c hc]

lemma joinSep_chars (sep : Char) (L : List Str) :
    ∀ c ∈ joinSep [sep] L, c = sep ∨ ∃ x ∈ L, c ∈ x := by
  induction L with
  | nil => intro c hc; simp [joinSep] at hc
  | cons x t ih =>
    cases t with
    | nil => exact fun c hc => Or.inr ⟨x, by simp, hc⟩
    | cons y t' =>
      intro c hc
      rw [joinSep_cons_cons] at hc
      simp only [List.append_assoc, List.mem_append, List.mem_cons,
        List.not_mem_nil, or_false] at hc
      rcases hc with h | h | h
      · exact Or.inr ⟨x, by simp, h⟩
      · exact Or.inl h
      · rcases ih c h with h' | ⟨z, hz, hcz⟩
        · exact Or.inl h'
        · exact Or.inr ⟨z, by simp [hz], hcz⟩

lemma pathEncode_append (a b : Str) :
    pathEncode (a ++ b) = pathEncode a ++ pathEncode b := by
  simp [pathEncode, List.flatMap_append]

lemma pathEncode_slash : pathEncode ['/'] = ['/'] := by decide

lemma pathEncode_cons_slash (s : Str) :
    pathEncode ('/' :: s) = '/' :: pathEncode s := by
  show pathEncode (['/'] ++ s) = '/' :: pathEncode s
  rw [pathEncode_append, pathEncode_slash]
  rfl

lemma pathEncode_joinSep (segs : List Str) :
    pathEncode (joinSep ['/'] segs) = joinSep ['/'] (segs.map pathEncode) := by
  induction segs with
  | nil => rfl
  | cons x t ih =>
    cases t with
    | nil => rfl
    | cons y t' =>
      rw [joinSep_cons_cons, pathEncode_append, pathEncode_append,
        pathEncode_slash, ih]
      simp only [List.map_cons, joinSep_cons_cons]

lemma pathEncode_id_of_goodOut (s : Str)
    (h : ∀ c ∈ s, inPathEncodeSet c = false) : pathEncode s = s := by
  induction s with
  | nil => rfl
  | cons c rest ih =>
    have hc := h c (by simp)
    have ih' := ih fun c hc => h c (by simp [hc])
    simp only [pathEncode, List.flatMap_cons] at ih' ⊢
    rw [if_neg (by simp [hc]), ih']
    rfl

lemma encChar_ne_nil (p : Char → Bool) (c : Char) : encChar p c ≠ [] := by
  unfold encChar
  split
  · cases he : utf8Enc c.toNat with
    | nil => exact absurd he (utf8Enc_ne_nil c.toNat)
    | cons b bs => simp [he, List.flatMap_cons, pctByte]
  · simp

lemma flatMap_encChar_ne_nil (p : Char → Bool) (s : Str) (h : s ≠ []) :
    s.flatMap (encChar p) ≠ [] := by
  cases s with
  | nil => exact absurd rfl h
  | cons c rest =>
    simp only [List.flatMap_cons]
    intro habs
    exact encChar_ne_nil p c (List.append_eq_nil.mp habs).1

lemma splitColon_colon (s : Str) : splitColon (':' :: s) = some s := by
  simp [splitColon]

lemma dropSlashes_host (host rest : Str) (hh0 : host ≠ [])
    (hh1 : ∀ c ∈ host, isHostEnd c = false) :
    ('/' :: '/' :: (host ++ rest)).dropWhile (· = '/') = host ++ rest := by
  cases host with
  | nil => exact absurd rfl hh0
  | cons h0 hs =>
    have : ¬(h0 = '/') := by
      intro e
      have := hh1 h0 (by simp)
      rw [e] at this
      simp [isHostEnd] at this
    simp [List.dropWhile_cons, this]

/-- `parseURL` on a well-formed authority URL whose path has no query or
fragment separators. -/
lemma parseURL_wf (scheme host path0 : Str)
    (hs0 : isAsciiAlpha (scheme.headD ' ') = true)
    (hs1 : ∀ c ∈ scheme, isSchemeTailChar c = true)
    (hh0 : host ≠ [])
    (hh1 : ∀ c ∈ host, isHostEnd c = false)
    (hp : ∀ c ∈ path0, isPathEnd c = false) :
    parseURL (scheme ++ ':' :: '/' :: '/' :: (host ++ '/' :: path0)) =
      some ⟨scheme.map toAsciiLower, host.map toAsciiLower,
        pathEncode ('/' :: path0), []⟩ := by
  have h1 := takeWhile_append_stop isSchemeTailChar scheme ':'
    ('/' :: '/' :: (host ++ '/' :: path0)) hs1 (by decide)
  have hdrop : (('/' :: '/' :: (host ++ '/' :: path0)).dropWhile (· = '/')) =
      host ++ '/' :: path0 := dropSlashes_host host ('/' :: path0) hh0 hh1
  have h2 := takeWhile_append_stop (fun c => !isHostEnd c) host '/' path0
    (fun c hc => by simp [hh1 c hc]) (by decide)
  have h3 := takeWhile_all (fun c => !isPathEnd c) ('/' :: path0)
    (by intro c hc
        rcases List.mem_cons.mp hc with rfl | hc'
        · decide
        · simp [hp c hc'])
  simp only [parseURL]
  rw [h1.2, splitColon_colon]
  dsimp only
  rw [h1.1, hdrop, h2.1, h2.2, h3.1, h3.2]
  simp [hs0, hh0]
  cases scheme with
  | nil => exact absurd hs0 (by decide)
  | cons a t => simpa using hs0

lemma isUrl_wf (scheme rest0 : Str)
    (hs0 : isAsciiAlpha (scheme.headD ' ') = true)
    (hs1 : ∀ c ∈ scheme, isSchemeTailChar c = true) :
    isUrl (scheme ++ ':' :: rest0) = true := by
  cases scheme with
  | nil => exact absurd hs0 (by decide)
  | cons s0 stail =>
    have h1 := takeWhile_append_stop isSchemeTailChar stail ':' rest0
      (fun c hc => hs1 c (by simp [hc])) (by decide)
    show isUrl (s0 :: (stail ++ ':' :: rest0)) = true
    simp only [isUrl, h1.2, splitColon_colon]
    simp only [List.headD_cons] at hs0
    simp [hs0]

lemma encSegment_goodOut (x : Str) : ∀ c ∈ encSegment x, goodOut c := by
  intro c hc
  unfold encSegment at hc
  by_cases he : x = []
  · rw [if_pos he] at hc
    rw [he] at hc
    simp at hc
  · rw [if_neg he] at hc
    exact encodeURIComponent_goodOut _ c hc

lemma pathEncode_ne_nil (s : Str) (h : s ≠ []) : pathEncode s ≠ [] := by
  rw [pathEncode_eq_encChar]
  exact flatMap_encChar_ne_nil _ s h

lemma encodeURIComponent_ne_nil (s : Str) (h : s ≠ []) :
    encodeURIComponent s ≠ [] := by
  rw [encodeURIComponent_eq_encChar]
  exact flatMap_encChar_ne_nil _ s h

/-- First pass over a raw segment: path-encoding by the `URL` constructor
followed by `encSegment` amounts to a single `encodeURIComponent`. -/
lemma encSegment_pathEncode_raw (seg : Str) (hne : seg ≠ [])
    (hseg : ∀ c ∈ seg, c ≠ '&' ∧ c ≠ '%') :
    encSegment (pathEncode seg) = encodeURIComponent seg := by
  unfold encSegment
  rw [if_neg (pathEncode_ne_nil seg hne)]
  rw [pathEncode_eq_encChar]
  rw [decodeHtmlEntities_encChar inPathEncodeSet seg
    (fun hm => (hseg '&' hm).1 rfl) (fun c hc _ => (hseg c hc).2)]

/-- Second pass over an already-encoded segment: the round trip through
`pathEncode`, `decodeHtmlEntities` and `encodeURIComponent` is the
identity. -/
lemma encSegment_pathEncode_enc (seg : Str) (hne : seg ≠ []) (hamp : '&' ∉ seg) :
    encSegment (pathEncode (encodeURIComponent seg)) = encodeURIComponent seg := by
  have hid : pathEncode (encodeURIComponent seg) = encodeURIComponent seg :=
    pathEncode_id_of_goodOut _ fun c hc => (encodeURIComponent_goodOut seg c hc).1
  rw [hid]
  unfold encSegment
  rw [if_neg (encodeURIComponent_ne_nil seg hne)]
  have hp : ∀ c ∈ seg, (!isUriUnreserved c) = false → c ≠ '%' := by
    intro c hc hfalse he
    subst he
    exact absurd hfalse (by decide)
  rw [show encodeURIComponent seg =
      seg.flatMap (encChar fun c => !isUriUnreserved c) from
    encodeURIComponent_eq_encChar seg]
  rw [decodeHtmlEntities_encChar _ seg hamp hp]
  exact encodeURIComponent_eq_encChar seg

/-- `encodeUrlPathSegments` on a well-formed, already-lowercased authority
URL rewrites each path segment `seg` to `encSegment (pathEncode seg)`. -/
lemma encodeUrlPathSegments_wf (scheme host : Str) (segs : List Str)
    (hs0 : isAsciiAlpha (scheme.headD ' ') = true)
    (hs1 : ∀ c ∈ scheme, isSchemeTailChar c = true)
    (hs2 : ∀ c ∈ scheme, toAsciiLower c = c)
    (hh0 : host ≠ [])
    (hh1 : ∀ c ∈ host, isHostEnd c = false)
    (hh2 : ∀ c ∈ host, toAsciiLower c = c)
    (hsegne : segs ≠ [])
    (hsegs : ∀ seg ∈ segs, seg ≠ [] ∧ ∀ c ∈ seg, c ≠ '/' ∧ c ≠ '?' ∧ c ≠ '#') :
    encodeUrlPathSegments
        (scheme ++ ':' :: '/' :: '/' :: (host ++ '/' :: joinSep ['/'] segs)) =
      scheme ++ ':' :: '/' :: '/' ::
        (host ++ '/' ::
          joinSep ['/'] (segs.map fun seg => encSegment (pathEncode seg))) := by
  have hp : ∀ c ∈ joinSep ['/'] segs, isPathEnd c = false := by
    intro c hc
    rcases joinSep_chars '/' segs c hc with rfl | ⟨x, hx, hcx⟩
    · decide
    · have h := (hsegs x hx).2 c hcx
      simp [isPathEnd, h.2.1, h.2.2]
  have hparse := parseURL_wf scheme host (joinSep ['/'] segs) hs0 hs1 hh0 hh1 hp
  have hmapS := map_stable toAsciiLower scheme hs2
  have hmapH := map_stable toAsciiLower host hh2
  have hmapne : segs.map pathEncode ≠ [] := by
    cases segs with
    | nil => exact absurd rfl hsegne
    | cons a t => simp
  have hmapne2 : (segs.map fun seg => encSegment (pathEncode seg)) ≠ [] := by
    cases segs with
    | nil => exact absurd rfl hsegne
    | cons a t => simp
  have hsplit : splitOnChar '/' (pathEncode ('/' :: joinSep ['/'] segs)) =
      [] :: segs.map pathEncode := by
    rw [pathEncode_cons_slash, pathEncode_joinSep, splitOnChar_cons_sep]
    rw [splitOnChar_joinSep '/' (segs.map pathEncode) hmapne
      (by intro seg hs c hc
          obtain ⟨s0, hs0', rfl⟩ := List.mem_map.mp hs
          exact (pathEncode_goodOut s0 (fun c hc =>
            (hsegs s0 hs0').2 c hc) c hc).2.1)]
  have hencnil : encSegment [] = [] := by simp [encSegment]
  have hsetter : pathEncode ('/' :: joinSep ['/']
      (segs.map fun seg => encSegment (pathEncode seg))) =
      '/' :: joinSep ['/'] (segs.map fun seg => encSegment (pathEncode seg)) := by
    apply pathEncode_id_of_goodOut
    intro c hc
    rcases List.mem_cons.mp hc with rfl | hc'
    · decide
    · rcases joinSep_chars '/' _ c hc' with rfl | ⟨x, hx, hcx⟩
      · decide
      · obtain ⟨s0, hs0', rfl⟩ := List.mem_map.mp hx
        exact (encSegment_goodOut (pathEncode s0) c hcx).1
  simp only [encodeUrlPathSegments, hparse, serializeURL]
  rw [hsplit]
  rw [List.map_cons, hencnil, List.map_map]
  rw [show encSegment ∘ pathEncode = fun seg => encSegment (pathEncode seg)
    from rfl]
  rw [joinSep_nil_cons ['/'] _ hmapne2, List.singleton_append]
  rw [hsetter, hmapS, hmapH]
  simp

/-- With no base configured, `resolvePath` on a non-empty URL is exactly
`encodeUrlPathSegments`. -/
lemma resolvePath_noBase_url (u : Str) (hne : u ≠ []) (hurl : isUrl u = true) :
    resolvePath (some u) {} = some (encodeUrlPathSegments u) := by
  simp [resolvePath, hne, hurl, strTruthy]

set_option maxHeartbeats 1000000 in
/-- C2 (amended): with no base repository URL configured, `resolvePath` is
idempotent on well-formed authority URLs `scheme://host/seg1/.../segN`
(lower-case scheme and host, at least one path segment, segments non-empty
and free of `/`, `?`, `#`, `&` and `%`): re-resolving an already-resolved
URL does not change it, so percent-encoding is never applied twice.  With a
base configured the original claim is false, because the resolved URL is
re-prefixed with the base and its `//` is collapsed
(`C2_resolvePath_rebase_counterexample`). -/
theorem C2_resolvePath_idempotent_no_base
    (scheme host : Str) (segs : List Str)
    (hs0 : isAsciiAlpha (scheme.headD ' ') = true)
    (hs1 : ∀ c ∈ scheme, isSchemeTailChar c = true ∧ toAsciiLower c = c)
    (hh0 : host ≠ [])
    (hh1 : ∀ c ∈ host, isHostEnd c = false ∧ toAsciiLower c = c)
    (hsegne : segs ≠ [])
    (hsegs : ∀ seg ∈ segs, seg ≠ [] ∧
      ∀ c ∈ seg, c ≠ '/' ∧ c ≠ '?' ∧ c ≠ '#' ∧ c ≠ '&' ∧ c ≠ '%') :
    resolvePath (resolvePath
      (some (scheme ++ ':' :: '/' :: '/' :: (host ++ '/' :: joinSep ['/'] segs)))
      {}) {} =
    resolvePath
      (some (scheme ++ ':' :: '/' :: '/' :: (host ++ '/' :: joinSep ['/'] segs)))
      {} := by
  have hune : (scheme ++ ':' :: '/' :: '/' ::
      (host ++ '/' :: joinSep ['/'] segs)) ≠ [] := by
    cases scheme <;> simp
  have hurl : isUrl (scheme ++ ':' :: '/' :: '/' ::
      (host ++ '/' :: joinSep ['/'] segs)) = true :=
    isUrl_wf scheme _ hs0 fun c hc => (hs1 c hc).1
  have hwf1 := encodeUrlPathSegments_wf scheme host segs hs0
    (fun c hc => (hs1 c hc).1) (fun c hc => (hs1 c hc).2) hh0
    (fun c hc => (hh1 c hc).1) (fun c hc => (hh1 c hc).2) hsegne
    (fun seg hs => ⟨(hsegs seg hs).1,
      fun c hc => ⟨((hsegs seg hs).2 c hc).1, ((hsegs seg hs).2 c hc).2.1,
        ((hsegs seg hs).2 c hc).2.2.1⟩⟩)
  have hsegmap : segs.map (fun seg => encSegment (pathEncode seg)) =
      segs.map encodeURIComponent := by
    apply List.map_congr_left
    intro seg hs
    exact encSegment_pathEncode_raw seg (hsegs seg hs).1 fun c hc =>
      ⟨((hsegs seg hs).2 c hc).2.2.2.1, ((hsegs seg hs).2 c hc).2.2.2.2⟩
  rw [hsegmap] at hwf1
  have hsegne2 : segs.map encodeURIComponent ≠ [] := by
    cases segs with
    | nil => exact absurd rfl hsegne
    | cons a t => simp
  have hsegs2 : ∀ seg ∈ segs.map encodeURIComponent, seg ≠ [] ∧
      ∀ c ∈ seg, c ≠ '/' ∧ c ≠ '?' ∧ c ≠ '#' := by
    intro s' hs'
    obtain ⟨s0, hs0', rfl⟩ := List.mem_map.mp hs'
    refine ⟨encodeURIComponent_ne_nil s0 (hsegs s0 hs0').1, ?_⟩
    intro c hc
    exact (encodeURIComponent_goodOut s0 c hc).2
  have hwf2 := encodeUrlPathSegments_wf scheme host (segs.map encodeURIComponent)
    hs0 (fun c hc => (hs1 c hc).1) (fun c hc => (hs1 c hc).2) hh0
    (fun c hc => (hh1 c hc).1) (fun c hc => (hh1 c hc).2) hsegne2 hsegs2
  have hsegmap2 : (segs.map encodeURIComponent).map
      (fun seg => encSegment (pathEncode seg)) = segs.map encodeURIComponent := by
    rw [List.map_map]
    apply List.map_congr_left
    intro s0 hs0'
    exact encSegment_pathEncode_enc s0 (hsegs s0 hs0').1
      fun hm => ((hsegs s0 hs0').2 '&' hm).2.2.2.1 rfl
  rw [hsegmap2] at hwf2
  have hr1ne : (scheme ++ ':' :: '/' :: '/' ::
      (host ++ '/' :: joinSep ['/'] (segs.map encodeURIComponent))) ≠ [] := by
    cases scheme <;> simp
  have hr1url : isUrl (scheme ++ ':' :: '/' :: '/' ::
      (host ++ '/' :: joinSep ['/'] (segs.map encodeURIComponent))) = true :=
    isUrl_wf scheme _ hs0 fun c hc => (hs1 c hc).1
  rw [resolvePath_noBase_url _ hune hurl, hwf1,
    resolvePath_noBase_url _ hr1ne hr1url, hwf2]

/-- Witness for C2 (amended): `https://example.com/re po` resolves to
`https://example.com/re%20po` and re-resolving leaves it unchanged. -/
theorem C2_resolvePath_idempotent_witness :
    resolvePath (resolvePath (some ("https".toList ++ ':' :: '/' :: '/' ::
        ("example.com".toList ++ '/' :: joinSep ['/'] ["re po".toList]))) {}) {} =
      resolvePath (some ("https".toList ++ ':' :: '/' :: '/' ::
        ("example.com".toList ++ '/' :: joinSep ['/'] ["re po".toList]))) {} :=
  C2_resolvePath_idempotent_no_base "https".toList "example.com".toList
    ["re po".toList] (by decide) (by decide) (by decide) (by decide) (by decide)
    (by decide)

end Svn
